import Mathlib

/-!
# Verification of the resumable mutation-test run orchestrator

Shallow embedding of the mutation-run subsystem (`src/mutation/{events,state,
engine,runner,report}.rs`) and proofs about its claimed properties.

Modelling conventions:
* Rust `String` values become Lean `String`; byte-level operations
  (`truncate_preview`) work over `Char.utf8Size`, which matches Rust's
  UTF-8 byte counts.
* `BTreeMap<String, MutantState>` becomes an association list kept sorted by
  strictly increasing key, so `values()` iteration order (ascending id) is
  preserved.
* The event-log file becomes a `List LogLine`: a line is blank, malformed
  (fails to parse), or a parsed event — exactly the three cases of the
  replay loop.
* Fallible operations (the byte slice in `truncate_preview` that can panic
  on a non-boundary index) return `Option`.
* `f64` arithmetic in the report is modelled with exact rationals; the
  identities and example values proved here are exactly representable.
-/

/-- Mutation classification (`MutationType` in `events.rs`). -/
inductive MutationType where
  | arithmetic
  | comparison
  | logical
  | boolean
  | returnValue
  | methodCall
  | assignment
  | boundary
  | negation
  | unknown
deriving DecidableEq, Repr

/-- Stable mutant descriptor (`MutantSpec` in `events.rs`). -/
structure MutantSpec where
  id : String
  label : String
  selector : String
  source_file : String
  source_line : Nat
  mutation_type : MutationType
  original_code : String
  mutated_code : String
deriving DecidableEq, Repr

/-- Test failure details (`TestFailure` in `events.rs`). -/
structure TestFailure where
  test_name : String
  message : Option String
deriving DecidableEq, Repr

/-- Outcome of executing tests against a mutant (`MutationOutcome`). -/
inductive MutationOutcome where
  | killed
  | survived
  | timeout
  | unviable
  | skipped
  | error (message : String)
deriving DecidableEq, Repr

/-- Snapshot of configuration stored in `RunStarted` (`RunConfigSnapshot`). -/
structure RunConfigSnapshot where
  timeout_secs : Option Nat
  filter : Option String
  quality_gate_minimum_score : Option ℚ
  quality_gate_maximum_survived : Option Nat
deriving DecidableEq, Repr

/-- Environment metadata stored in `RunStarted` (`RunMetadata`). -/
structure RunMetadata where
  rustc_version : String
  cargo_version : String
  cargo_mutants_version : String
  git_commit : String
  git_branch : String
  os : String
  arch : String
deriving DecidableEq, Repr

/-- Log event emitted during mutation orchestration (`MutationEvent`). -/
inductive MutationEvent where
  | runStarted (run_id : String) (timestamp_ms : Int) (discovered : Nat)
      (config : Option RunConfigSnapshot) (metadata : Option RunMetadata)
  | runResumed (run_id : String) (timestamp_ms : Int) (remaining : Nat)
  | mutantDiscovered (run_id : String) (timestamp_ms : Int) (mutant : MutantSpec)
  | mutantStarted (run_id : String) (timestamp_ms : Int) (mutant_id : String)
  | mutantFinished (run_id : String) (timestamp_ms : Int) (mutant_id : String)
      (outcome : MutationOutcome) (exit_code : Option Int)
      (stdout_artifact_path : Option String) (stderr_artifact_path : Option String)
      (started_at_ms : Option Int) (finished_at_ms : Option Int)
      (duration_ms : Option Nat) (tests_run : List String)
      (tests_failed : List TestFailure)
      (stdout_preview : Option String) (stderr_preview : Option String)
  | runInterrupted (run_id : String) (timestamp_ms : Int) (reason : String)
  | runCompleted (run_id : String) (timestamp_ms : Int)
deriving DecidableEq, Repr

/-- Status derived from the event stream for each mutant (`MutationStatus`). -/
inductive MutationStatus where
  | pending
  | running
  | killed
  | survived
  | timeout
  | unviable
  | skipped
  | error
deriving DecidableEq, Repr

/-- `MutationStatus::is_terminal`. -/
def MutationStatus.is_terminal : MutationStatus → Bool
  | .killed => true
  | .survived => true
  | .timeout => true
  | .unviable => true
  | .skipped => true
  | .error => true
  | .pending => false
  | .running => false

/-- Per-mutant state in the replay snapshot (`MutantState` in `state.rs`). -/
structure MutantState where
  spec : MutantSpec
  status : MutationStatus
  started_at_ms : Option Int
  finished_at_ms : Option Int
  duration_ms : Option Nat
  exit_code : Option Int
  stdout_artifact_path : Option String
  stderr_artifact_path : Option String
  last_error : Option String
  tests_run : List String
  tests_failed : List TestFailure
  stdout_preview : Option String
  stderr_preview : Option String
deriving DecidableEq, Repr

/-- Run-level metadata from the `RunStarted` event (`RunInfo`). -/
structure RunInfo where
  config : Option RunConfigSnapshot
  metadata : Option RunMetadata
deriving DecidableEq, Repr

/-- Materialized run state derived from `events.jsonl` (`RunSnapshot`).
The `mutants` field models `BTreeMap<String, MutantState>` as an
association list sorted by strictly increasing key. -/
structure RunSnapshot where
  run_id : String
  mutants : List (String × MutantState)
  malformed_lines : Nat
  interrupted : Bool
  completed : Bool
  info : RunInfo
deriving DecidableEq, Repr

/-- Computable lexicographic comparison of character lists (the order in
which `BTreeMap<String, _>` keeps UTF-8 keys). -/
def charListLt : List Char → List Char → Bool
  | [], [] => false
  | [], _ :: _ => true
  | _ :: _, [] => false
  | a :: as, b :: bs =>
    if a < b then true else if b < a then false else charListLt as bs

/-- Computable strict order on map keys; provably the standard
lexicographic `String` order. -/
def keyLt (a b : String) : Bool :=
  charListLt a.toList b.toList

/-- Insertion into the sorted association list: the model of
`BTreeMap::insert` (replaces the value when the key is present). -/
def mapInsert (k : String) (v : MutantState) :
    List (String × MutantState) → List (String × MutantState)
  | [] => [(k, v)]
  | (k₀, v₀) :: t =>
    if keyLt k k₀ then (k, v) :: (k₀, v₀) :: t
    else if k = k₀ then (k, v) :: t
    else (k₀, v₀) :: mapInsert k v t

/-- In-place update of an existing entry: the model of
`BTreeMap::get_mut` followed by mutation (no effect when absent). -/
def mapUpdate (k : String) (f : MutantState → MutantState) :
    List (String × MutantState) → List (String × MutantState)
  | [] => []
  | (k₀, v₀) :: t =>
    if k = k₀ then (k₀, f v₀) :: t else (k₀, v₀) :: mapUpdate k f t

/-- Key lookup in the association list (`BTreeMap::get`). -/
def mapLookup (k : String) : List (String × MutantState) → Option MutantState
  | [] => none
  | (k₀, v₀) :: t => if k = k₀ then some v₀ else mapLookup k t

/-- `RunSnapshot::pending_mutants`: all mutants with a non-terminal derived
status, in map (ascending id) order. -/
def RunSnapshot.pending_mutants (s : RunSnapshot) : List MutantSpec :=
  (s.mutants.filter (fun p => ! p.2.status.is_terminal)).map (fun p => p.2.spec)

/-- `RunSnapshot::survivor_mutants`: all mutants with terminal status
`Survived`, in map (ascending id) order. -/
def RunSnapshot.survivor_mutants (s : RunSnapshot) : List MutantSpec :=
  (s.mutants.filter (fun p => p.2.status = MutationStatus.survived)).map
    (fun p => p.2.spec)

/-- One line of `events.jsonl` as seen by the replay loop: whitespace-only
(skipped), malformed (counted), or a parsed event. -/
inductive LogLine where
  | blank
  | malformed
  | event (e : MutationEvent)
deriving DecidableEq, Repr

/-- Fresh per-mutant state created by `MutantDiscovered` replay. -/
def freshMutantState (mutant : MutantSpec) : MutantState :=
  { spec := mutant
    status := .pending
    started_at_ms := none
    finished_at_ms := none
    duration_ms := none
    exit_code := none
    stdout_artifact_path := none
    stderr_artifact_path := none
    last_error := none
    tests_run := []
    tests_failed := []
    stdout_preview := none
    stderr_preview := none }

/-- The `MutantFinished` replay update applied to an existing state, field
by field in the order of the source. -/
def applyFinished (timestamp_ms : Int) (outcome : MutationOutcome)
    (exit_code : Option Int)
    (stdout_artifact_path stderr_artifact_path : Option String)
    (started_at_ms : Option Int) (duration_ms : Option Nat)
    (tests_run : List String) (tests_failed : List TestFailure)
    (stdout_preview stderr_preview : Option String)
    (st : MutantState) : MutantState :=
  let finished := some timestamp_ms
  let started := started_at_ms.or st.started_at_ms
  let duration := duration_ms.or
    (match started, finished with
     | some a, some b => if a ≤ b then some (b - a).toNat else none
     | _, _ => none)
  { st with
    finished_at_ms := finished
    started_at_ms := started
    duration_ms := duration
    exit_code := exit_code
    stdout_artifact_path := stdout_artifact_path
    stderr_artifact_path := stderr_artifact_path
    tests_run := tests_run
    tests_failed := tests_failed
    stdout_preview := stdout_preview
    stderr_preview := stderr_preview
    status :=
      match outcome with
      | .killed => .killed
      | .survived => .survived
      | .timeout => .timeout
      | .unviable => .unviable
      | .skipped => .skipped
      | .error _ => .error
    last_error :=
      match outcome with
      | .error message => some message
      | _ => st.last_error }

/-- One step of the replay loop body in `replay_events`. -/
def replayStep (s : RunSnapshot) : LogLine → RunSnapshot
  | .blank => s
  | .malformed => { s with malformed_lines := s.malformed_lines + 1 }
  | .event e =>
    match e with
    | .runStarted id _ _ config metadata =>
      { s with
        run_id := if s.run_id = "" then id else s.run_id
        info := { config := config, metadata := metadata } }
    | .runResumed id _ _ =>
      { s with run_id := if s.run_id = "" then id else s.run_id }
    | .mutantDiscovered _ _ mutant =>
      { s with mutants := mapInsert mutant.id (freshMutantState mutant) s.mutants }
    | .mutantStarted _ ts mutant_id =>
      { s with
        mutants := mapUpdate mutant_id
          (fun st => { st with status := .running, started_at_ms := some ts })
          s.mutants }
    | .mutantFinished _ ts mutant_id outcome exit_code outP errP startedAt _ dur
        tr tf sp ep =>
      { s with
        mutants := mapUpdate mutant_id
          (applyFinished ts outcome exit_code outP errP startedAt dur tr tf sp ep)
          s.mutants }
    | .runInterrupted _ _ _ => { s with interrupted := true }
    | .runCompleted _ _ => { s with completed := true }

/-- Initial accumulator of `replay_events`. -/
def initialSnapshot : RunSnapshot :=
  { run_id := ""
    mutants := []
    malformed_lines := 0
    interrupted := false
    completed := false
    info := { config := none, metadata := none } }

/-- `replay_events`: fold the log lines into a snapshot. -/
def replayLines (lines : List LogLine) : RunSnapshot :=
  lines.foldl replayStep initialSnapshot

/-- ASCII lowercasing of one character (`char::to_ascii_lowercase`). -/
def asciiLowerChar (c : Char) : Char :=
  if 65 ≤ c.toNat ∧ c.toNat ≤ 90 then Char.ofNat (c.toNat + 32) else c

/-- `str::to_ascii_lowercase` over the character list. -/
def asciiLower (s : List Char) : List Char :=
  s.map asciiLowerChar

/-- `str::contains` for a literal needle: some contiguous run of `hay`
starts with `needle`. -/
def containsSeq (needle : List Char) : List Char → Bool
  | [] => needle.isEmpty
  | c :: t => needle.isPrefixOf (c :: t) || containsSeq needle t

/-- `str::contains` lifted to `String`. -/
def strContains (hay needle : String) : Bool :=
  containsSeq needle.toList hay.toList

/-- `str::trim` over the character list (drop leading and trailing
whitespace). -/
def trimChars (s : List Char) : List Char :=
  ((s.dropWhile Char.isWhitespace).reverse.dropWhile Char.isWhitespace).reverse

/-- `str::trim` lifted to `String`. -/
def trimString (s : String) : String :=
  String.mk (trimChars s.toList)

/-- The "zero mutants" banner check at the top of `classify_outcome`. -/
def hasZeroMutantsPhrase (lower : List Char) : Bool :=
  containsSeq "found 0 mutants to test".toList lower ||
    containsSeq "no mutants found under the active filters".toList lower

/-- `CargoMutantsEngine::classify_outcome`: keyword heuristics over the
lowercased combined output, falling back to the process exit status
(`success = true` models exit code 0). -/
def classify_outcome (success : Bool) (text : String) : MutationOutcome :=
  let lower := asciiLower text.toList
  if hasZeroMutantsPhrase lower then
    .error (trimString text)
  else if containsSeq "timeout".toList lower then .timeout
  else if containsSeq "unviable".toList lower then .unviable
  else if containsSeq "survived".toList lower || containsSeq "missed".toList lower then
    .survived
  else if containsSeq "killed".toList lower || containsSeq "caught".toList lower then
    .killed
  else if success then .killed
  else .error (trimString text)

/-- `OUTPUT_PREVIEW_MAX_BYTES` in `events.rs`. -/
def OUTPUT_PREVIEW_MAX_BYTES : Nat := 4096

/-- UTF-8 byte length of a string (`str::len` in Rust). -/
def utf8Len (s : String) : Nat :=
  (s.toList.map Char.utf8Size).sum

/-- Take exactly `n` UTF-8 bytes from the front of a character list.
Returns `none` when `n` is not a character boundary (or exceeds the
length) — the cases in which the Rust byte slice `&s[..n]` panics. -/
def takeBytes : List Char → Nat → Option (List Char)
  | _, 0 => some []
  | [], _ + 1 => none
  | c :: t, n + 1 =>
    if c.utf8Size ≤ n + 1 then (takeBytes t (n + 1 - c.utf8Size)).map (c :: ·)
    else none

/-- `truncate_preview` in `events.rs`. The source slices the string at byte
index `OUTPUT_PREVIEW_MAX_BYTES - 3`; that indexing panics when the index
is not a character boundary, modelled as `none`. -/
def truncate_preview (output : String) : Option String :=
  if utf8Len output ≤ OUTPUT_PREVIEW_MAX_BYTES then some output
  else
    (takeBytes output.toList (OUTPUT_PREVIEW_MAX_BYTES - 3)).map
      (fun cs => String.mk (cs ++ "...".toList))

/-- Execution result for one mutant (`MutantExecutionResult` in
`engine.rs`). -/
structure MutantExecutionResult where
  outcome : MutationOutcome
  exit_code : Option Int
  stdout : String
  stderr : String
deriving DecidableEq, Repr

/-- The engine boundary as seen by the runner: `execute_mutant` either
yields a result or fails with an error rendered to a message string. -/
def EngineExec : Type :=
  MutantSpec → Except String MutantExecutionResult

/-- `sanitize_mutant_id` in `runner.rs`: keep ASCII alphanumerics, `-`
and `_`; replace everything else by `_`. -/
def sanitize_mutant_id (mutant_id : String) : String :=
  String.mk (mutant_id.toList.map
    (fun c => if c.isAlphanum || c = '-' || c = '_' then c else '_'))

/-- The artifact paths computed by `write_mutant_artifacts` (the file
writes themselves are external effects; the returned relative paths are
what enters the event log). -/
def write_mutant_artifacts (mutant_id : String) (result : MutantExecutionResult) :
    Option String × Option String :=
  let safe_id := sanitize_mutant_id mutant_id
  let isErrorOutcome :=
    match result.outcome with
    | .error _ => true
    | _ => false
  ( if ! result.stdout.isEmpty || isErrorOutcome then
      some ("artifacts/" ++ safe_id ++ ".stdout.log")
    else none,
    if ! result.stderr.isEmpty || isErrorOutcome then
      some ("artifacts/" ++ safe_id ++ ".stderr.log")
    else none )

/-- `run_mutant` in `runner.rs`: the two events it appends for one mutant.
`clock` yields successive `now_timestamp_ms` results and `t` counts calls
made so far; `dur` is the measured wall-clock duration. `none` models the
panic of `truncate_preview` on a non-boundary preview slice. -/
def run_mutant (rid : String) (mutant : MutantSpec)
    (exec : Except String MutantExecutionResult)
    (clock : Nat → Int) (t : Nat) (dur : Nat) :
    Option (List MutationEvent × Nat) :=
  let started_at := clock t
  let execution :=
    match exec with
    | .ok e => e
    | .error msg =>
      { outcome := .error msg, exit_code := none, stdout := "", stderr := "" }
  let finished_at := clock (t + 1)
  let paths := write_mutant_artifacts mutant.id execution
  match truncate_preview execution.stdout, truncate_preview execution.stderr with
  | some sp, some ep =>
    some ([MutationEvent.mutantStarted rid started_at mutant.id,
           MutationEvent.mutantFinished rid finished_at mutant.id
             execution.outcome execution.exit_code paths.1 paths.2
             (some started_at) (some finished_at) (some dur) [] []
             (some sp) (some ep)],
          t + 2)
  | _, _ => none

/-- The execution loop shared by `run_new`, `resume_run` and
`rerun_survivors`: poll the interrupt flag before each mutant; on a set
flag append `RunInterrupted` and break, otherwise run the mutant. Returns
the appended events, whether the loop broke out on interrupt, the next
poll index and the next clock counter. `flag i` is the value the shared
atomic flag is observed to hold at the i-th poll. -/
def execLoop (rid reason : String) (engine : EngineExec) (flag : Nat → Bool)
    (clock : Nat → Int) (dur : Nat → Nat) :
    List MutantSpec → Nat → Nat → Option (List MutationEvent × Bool × Nat × Nat)
  | [], i, t => some ([], false, i, t)
  | m :: rest, i, t =>
    if flag i then
      some ([MutationEvent.runInterrupted rid (clock t) reason], true, i, t + 1)
    else
      match run_mutant rid m (engine m) clock t (dur i) with
      | none => none
      | some (evs, t₁) =>
        (execLoop rid reason engine flag clock dur rest (i + 1) t₁).map
          (fun r => (evs ++ r.1, r.2.1, r.2.2.1, r.2.2.2))

/-- The substring filter applied to discovered mutants in `run_new`
(matching id, label or selector). -/
def run_new_filter (filter : Option String) (mutants : List MutantSpec) :
    List MutantSpec :=
  match filter with
  | none => mutants
  | some f =>
    mutants.filter (fun m =>
      strContains m.id f || strContains m.label f || strContains m.selector f)

/-- The `MutantDiscovered` events appended after `RunStarted` in `run_new`,
threading the clock counter. -/
def discoverEvents (rid : String) (clock : Nat → Int) :
    List MutantSpec → Nat → List MutationEvent × Nat
  | [], t => ([], t)
  | m :: rest, t =>
    let r := discoverEvents rid clock rest (t + 1)
    (MutationEvent.mutantDiscovered rid (clock t) m :: r.1, r.2)

/-- The fresh-run path of `run_new` (after the delegation checks for an
incomplete or completed-with-survivors run found nothing): filter the
discovered mutants, append `RunStarted` and one `MutantDiscovered` per
mutant, run the shared loop, and append `RunCompleted` when the interrupt
flag is still clear. Returns the full event log written by the run. -/
def run_new_fresh (rid : String) (timeout_secs : Option Nat)
    (filter : Option String) (meta : RunMetadata)
    (discovered : List MutantSpec) (engine : EngineExec)
    (flag : Nat → Bool) (clock : Nat → Int) (dur : Nat → Nat) :
    Option (List MutationEvent) :=
  let mutants := run_new_filter filter discovered
  let cfgSnap : RunConfigSnapshot :=
    { timeout_secs := timeout_secs, filter := filter
      quality_gate_minimum_score := none, quality_gate_maximum_survived := none }
  let startEv :=
    MutationEvent.runStarted rid (clock 0) mutants.length (some cfgSnap) (some meta)
  let disc := discoverEvents rid clock mutants 1
  match execLoop rid "received interrupt signal" engine flag clock dur
      mutants 0 disc.2 with
  | none => none
  | some (loopEvs, broke, i₁, t₁) =>
    if broke || flag i₁ then some (startEv :: disc.1 ++ loopEvs)
    else some (startEv :: disc.1 ++ loopEvs ++
        [MutationEvent.runCompleted rid (clock t₁)])

/-- The de-duplicating extension of the resume queue: push each pending
mutant whose id was not seen yet (`BTreeSet::insert` returning `true`). -/
def resume_scheduled_dedup (seen : List String) :
    List MutantSpec → List MutantSpec
  | [] => []
  | m :: rest =>
    if seen.contains m.id then resume_scheduled_dedup seen rest
    else m :: resume_scheduled_dedup (m.id :: seen) rest

/-- The work queue built by `resume_run`: survivors first; for a
not-completed run, follow with the pending mutants whose ids are not in
the survivor set. -/
def resume_scheduled (s : RunSnapshot) : List MutantSpec :=
  let survivors := s.survivor_mutants
  if s.completed then survivors
  else
    survivors ++
      resume_scheduled_dedup (survivors.map (fun m => m.id)) s.pending_mutants

/-- `resume_run` on an existing log `prior`: replay, return the snapshot
unchanged when the run is completed with no survivors, otherwise append
`RunResumed`, run the shared loop over the resume queue, append
`RunCompleted` when the flag stayed clear, and re-replay. Returns the
resulting snapshot together with the newly appended events. -/
def resume_run (rid : String) (prior : List LogLine) (engine : EngineExec)
    (flag : Nat → Bool) (clock : Nat → Int) (dur : Nat → Nat) :
    Option (RunSnapshot × List MutationEvent) :=
  let snapshot := replayLines prior
  let survivors := snapshot.survivor_mutants
  if snapshot.completed && survivors.isEmpty then some (snapshot, [])
  else
    let scheduled := resume_scheduled snapshot
    let resumedEv := MutationEvent.runResumed rid (clock 0) scheduled.length
    match execLoop rid "received interrupt signal during resume" engine flag
        clock dur scheduled 0 1 with
    | none => none
    | some (loopEvs, broke, i₁, t₁) =>
      let newEvs :=
        if broke || flag i₁ then resumedEv :: loopEvs
        else resumedEv :: loopEvs ++ [MutationEvent.runCompleted rid (clock t₁)]
      some (replayLines (prior ++ newEvs.map LogLine.event), newEvs)

/-- `rerun_survivors` on an existing log `prior`: replay, return the
snapshot unchanged when there are no survivors, otherwise append
`RunResumed`, run the shared loop over exactly the survivor queue, and
re-replay. No `RunCompleted` is ever appended on this path. -/
def rerun_survivors (rid : String) (prior : List LogLine) (engine : EngineExec)
    (flag : Nat → Bool) (clock : Nat → Int) (dur : Nat → Nat) :
    Option (RunSnapshot × List MutationEvent) :=
  let snapshot := replayLines prior
  let survivors := snapshot.survivor_mutants
  if survivors.isEmpty then some (snapshot, [])
  else
    let resumedEv := MutationEvent.runResumed rid (clock 0) survivors.length
    match execLoop rid "received interrupt signal during survivor rerun" engine
        flag clock dur survivors 0 1 with
    | none => none
    | some (loopEvs, _, _, _) =>
      let newEvs := resumedEv :: loopEvs
      some (replayLines (prior ++ newEvs.map LogLine.event), newEvs)

/-- Aggregated run counts (`RunSummary` in `report.rs`); the `f64` score is
modelled as an exact rational. -/
structure RunSummary where
  total : Nat
  mutation_score : ℚ
  killed : Nat
  survived : Nat
  timeout : Nat
  unviable : Nat
  skipped : Nat
  error : Nat
  incomplete : Nat
deriving DecidableEq, Repr

/-- `RunSummary::from_snapshot`: count the per-status totals over the
snapshot map and compute `killed * 100 / (total - skipped - unviable)`
(the subtraction saturating at zero, with a `100` fallback when nothing
is testable). -/
def RunSummary.from_snapshot (s : RunSnapshot) : RunSummary :=
  let statuses := s.mutants.map (fun p => p.2.status)
  let total := s.mutants.length
  let killed := statuses.count MutationStatus.killed
  let skipped := statuses.count MutationStatus.skipped
  let unviable := statuses.count MutationStatus.unviable
  let testable := total - (skipped + unviable)
  { total := total
    mutation_score :=
      if 0 < testable then (killed : ℚ) * 100 / (testable : ℚ) else 100
    killed := killed
    survived := statuses.count MutationStatus.survived
    timeout := statuses.count MutationStatus.timeout
    unviable := unviable
    skipped := skipped
    error := statuses.count MutationStatus.error
    incomplete := (statuses.filter (fun st => ! st.is_terminal)).length }

/-- Discriminator: is this event a `RunCompleted`? -/
def MutationEvent.isRunCompleted : MutationEvent → Bool
  | .runCompleted _ _ => true
  | _ => false

/-- Discriminator: is this event a `RunInterrupted`? -/
def MutationEvent.isRunInterrupted : MutationEvent → Bool
  | .runInterrupted _ _ _ => true
  | _ => false

/-- The mutant id carried by a `MutantStarted` event. -/
def MutationEvent.startedId : MutationEvent → Option String
  | .mutantStarted _ _ mutant_id => some mutant_id
  | _ => none

/-- The mutant id whose per-mutant state this event can affect during
replay (`MutantDiscovered`, `MutantStarted` or `MutantFinished`). -/
def MutationEvent.touchedId : MutationEvent → Option String
  | .mutantDiscovered _ _ mutant => some mutant.id
  | .mutantStarted _ _ mutant_id => some mutant_id
  | .mutantFinished _ _ mutant_id _ _ _ _ _ _ _ _ _ _ _ => some mutant_id
  | _ => none

/-- Does this log line replay to a `RunCompleted` fact? -/
def LogLine.isCompletedLine : LogLine → Bool
  | .event (.runCompleted _ _) => true
  | _ => false

/-- Does this log line affect the per-mutant state of id `X`? -/
def LogLine.touches (X : String) : LogLine → Bool
  | .event e => e.touchedId == some X
  | _ => false

/-- Does this log line reset (re-discover) or finish mutant `X`?  These are
the replay steps that can move a `Running` mutant away from `Running`. -/
def LogLine.resetsOrFinishes (X : String) : LogLine → Bool
  | .event (.mutantDiscovered _ _ mutant) => mutant.id == X
  | .event (.mutantFinished _ _ mutant_id _ _ _ _ _ _ _ _ _ _ _) => mutant_id == X
  | _ => false

/-- Well-formedness of the snapshot map: keys strictly increasing (the
`BTreeMap` ordering) and each entry keyed by its own spec id. -/
def MapWF (l : List (String × MutantState)) : Prop :=
  l.Pairwise (fun a b => a.1 < b.1) ∧ ∀ p ∈ l, p.2.spec.id = p.1

/-- A minimal mutant spec used by the concrete scenarios. -/
def mkMutant (id label selector : String) : MutantSpec :=
  { id := id, label := label, selector := selector, source_file := ""
    source_line := 0, mutation_type := .unknown
    original_code := "", mutated_code := "" }

/-- Concrete scenario mutant with id `a`. -/
def mutA : MutantSpec := mkMutant "a" "mutant-a" "sel-a"

/-- Concrete scenario mutant with id `b`. -/
def mutB : MutantSpec := mkMutant "b" "mutant-b" "sel-b"

/-- Concrete scenario mutant with id `c`. -/
def mutC : MutantSpec := mkMutant "c" "mutant-c" "sel-c"

/-- Empty environment metadata for concrete scenarios. -/
def meta0 : RunMetadata :=
  { rustc_version := "", cargo_version := "", cargo_mutants_version := ""
    git_commit := "", git_branch := "", os := "", arch := "" }

/-- Engine whose every execution kills the mutant with empty output. -/
def engKill : EngineExec :=
  fun _ => .ok { outcome := .killed, exit_code := some 0, stdout := "", stderr := "" }

/-- Engine whose every execution reports the mutant as surviving. -/
def engSurv : EngineExec :=
  fun _ => .ok { outcome := .survived, exit_code := some 0, stdout := "", stderr := "" }

/-- Interrupt flag that is never set. -/
def flagF : Nat → Bool := fun _ => false

/-- Interrupt flag that is already set at every poll. -/
def flagT : Nat → Bool := fun _ => true

/-- Constant zero clock for concrete scenarios. -/
def clock0 : Nat → Int := fun _ => 0

/-- Constant zero duration for concrete scenarios. -/
def dur0 : Nat → Nat := fun _ => 0

/-- A `MutantFinished` log line with the given outcome and defaulted
optional fields, as appended by a minimal writer. -/
def finishedLine (rid : String) (mutant_id : String) (outcome : MutationOutcome) :
    LogLine :=
  .event (.mutantFinished rid 0 mutant_id outcome none none none none none none
    [] [] none none)

/-- C1 counterexample log: an incomplete run whose two survivors were
discovered in the order `b` then `a`. -/
def c1prior : List LogLine :=
  [ .event (.runStarted "r" 0 3 none none)
  , .event (.mutantDiscovered "r" 0 mutB)
  , .event (.mutantDiscovered "r" 0 mutA)
  , .event (.mutantDiscovered "r" 0 mutC)
  , finishedLine "r" "b" .survived
  , finishedLine "r" "a" .survived ]

/-- The spec scenario for resume ordering: `a` survived, `b` killed,
`c` pending, discovered in id order. -/
def cABC : List LogLine :=
  [ .event (.runStarted "r" 0 3 none none)
  , .event (.mutantDiscovered "r" 0 mutA)
  , .event (.mutantDiscovered "r" 0 mutB)
  , .event (.mutantDiscovered "r" 0 mutC)
  , finishedLine "r" "a" .survived
  , finishedLine "r" "b" .killed ]

/-- C5 counterexample log: an incomplete run with one survivor `a` and one
pending mutant `b`. -/
def c5prior : List LogLine :=
  [ .event (.runStarted "r" 0 2 none none)
  , .event (.mutantDiscovered "r" 0 mutA)
  , .event (.mutantDiscovered "r" 0 mutB)
  , finishedLine "r" "a" .survived ]

/-- C6 counterexample, step 1: the full log written by a fresh `run_new`
over one mutant that survives (ends in `RunCompleted`). -/
def c6log1 : List MutationEvent :=
  (run_new_fresh "r" none none meta0 [mutA] engSurv flagF clock0 dur0).getD []

/-- C6 counterexample, step 2: the events appended by `resume_run` on that
completed-with-survivor log. -/
def c6resumed : List MutationEvent :=
  ((resume_run "r" (c6log1.map LogLine.event) engKill flagF clock0 dur0).map
    Prod.snd).getD []

/-- C6 counterexample: the whole log after `run_new` then `resume_run`. -/
def c6full : List MutationEvent := c6log1 ++ c6resumed

/-- C9 example log: completed run with two mutants, one killed and one
survived. -/
def c9logKS : List LogLine :=
  [ .event (.runStarted "r" 0 2 none none)
  , .event (.mutantDiscovered "r" 0 mutA)
  , .event (.mutantDiscovered "r" 0 mutB)
  , finishedLine "r" "a" .killed
  , finishedLine "r" "b" .survived
  , .event (.runCompleted "r" 0) ]

/-- C9 example log: completed run with both mutants killed. -/
def c9logKK : List LogLine :=
  [ .event (.runStarted "r" 0 2 none none)
  , .event (.mutantDiscovered "r" 0 mutA)
  , .event (.mutantDiscovered "r" 0 mutB)
  , finishedLine "r" "a" .killed
  , finishedLine "r" "b" .killed
  , .event (.runCompleted "r" 0) ]

/-- C10 failing input: 4092 ASCII bytes followed by a three-byte character,
so byte 4093 (the slice index used by `truncate_preview`) falls in the
middle of a character; total length 4097 bytes exceeds the preview cap. -/
def c10bad : String :=
  String.mk (List.replicate 4092 'a' ++ ['€', 'a', 'a'])

theorem charListLt_iff_lt : ∀ as bs : List Char, charListLt as bs = true ↔ as < bs := by
  intro as
  induction as with
  | nil =>
    intro bs
    cases bs with
    | nil =>
      constructor
      · intro h
        exact absurd h (by decide)
      · intro h
        cases h
    | cons b bs =>
      constructor
      · intro _
        exact List.Lex.nil
      · intro _
        rfl
  | cons a as ih =>
    intro bs
    cases bs with
    | nil =>
      constructor
      · intro h
        exact absurd h (by simp [charListLt])
      · intro h
        cases h
    | cons b bs =>
      simp only [charListLt]
      by_cases hab : a < b
      · rw [if_pos hab]
        constructor
        · intro _
          exact List.Lex.rel hab
        · intro _
          rfl
      · rw [if_neg hab]
        by_cases hba : b < a
        · rw [if_pos hba]
          constructor
          · intro h
            exact absurd h (by decide)
          · intro h
            cases h with
            | cons h => exact absurd hba (lt_irrefl _)
            | rel h => exact absurd h hab
        · rw [if_neg hba]
          have heq : a = b := le_antisymm (le_of_not_lt hba) (le_of_not_lt hab)
          subst heq
          constructor
          · intro h
            exact List.Lex.cons ((ih bs).mp h)
          · intro h
            cases h with
            | cons h => exact (ih bs).mpr h
            | rel h => exact absurd h hab

theorem keyLt_iff {a b : String} : keyLt a b = true ↔ a < b := by
  rw [String.lt_iff_toList_lt]
  exact charListLt_iff_lt a.toList b.toList

theorem mapInsert_mem {k : String} {v : MutantState}
    {l : List (String × MutantState)} {p : String × MutantState}
    (h : p ∈ mapInsert k v l) : p = (k, v) ∨ p ∈ l := by
  induction l with
  | nil => simpa [mapInsert] using h
  | cons q t ih =>
    obtain ⟨k₀, v₀⟩ := q
    simp only [mapInsert] at h
    split at h
    · simpa using h
    · split at h
      · rcases List.mem_cons.mp h with h | h
        · exact Or.inl h
        · exact Or.inr (List.mem_cons_of_mem _ h)
      · rcases List.mem_cons.mp h with h | h
        · exact Or.inr (h ▸ List.mem_cons_self _ _)
        · rcases ih h with h | h
          · exact Or.inl h
          · exact Or.inr (List.mem_cons_of_mem _ h)

theorem mapInsert_pairwise {k : String} {v : MutantState}
    {l : List (String × MutantState)}
    (h : l.Pairwise (fun a b => a.1 < b.1)) :
    (mapInsert k v l).Pairwise (fun a b => a.1 < b.1) := by
  induction l with
  | nil => simp [mapInsert]
  | cons q t ih =>
    obtain ⟨k₀, v₀⟩ := q
    rw [List.pairwise_cons] at h
    obtain ⟨hhead, htail⟩ := h
    simp only [mapInsert]
    split
    · rename_i hlt
      have hlt₂ : k < k₀ := keyLt_iff.mp hlt
      refine List.pairwise_cons.mpr ⟨?_, List.pairwise_cons.mpr ⟨hhead, htail⟩⟩
      intro b hb
      rcases List.mem_cons.mp hb with rfl | hb
      · exact hlt₂
      · exact lt_trans hlt₂ (hhead b hb)
    · split
      · rename_i hne heq
        subst heq
        exact List.pairwise_cons.mpr ⟨hhead, htail⟩
      · rename_i hnlt hne
        have hnlt₂ : ¬k < k₀ := fun hh => hnlt (keyLt_iff.mpr hh)
        have hgt : k₀ < k := lt_of_le_of_ne (le_of_not_lt hnlt₂) (fun e => hne e.symm)
        refine List.pairwise_cons.mpr ⟨?_, ih htail⟩
        intro b hb
        rcases mapInsert_mem hb with rfl | hb
        · exact hgt
        · exact hhead b hb

theorem mapUpdate_mem {k : String} {f : MutantState → MutantState}
    {l : List (String × MutantState)} {p : String × MutantState}
    (h : p ∈ mapUpdate k f l) : ∃ q ∈ l, p.1 = q.1 ∧ (p.2 = q.2 ∨ p.2 = f q.2) := by
  induction l with
  | nil => simp [mapUpdate] at h
  | cons q t ih =>
    obtain ⟨k₀, v₀⟩ := q
    simp only [mapUpdate] at h
    split at h
    · rcases List.mem_cons.mp h with rfl | h
      · exact ⟨(k₀, v₀), List.mem_cons_self _ _, rfl, Or.inr rfl⟩
      · exact ⟨p, List.mem_cons_of_mem _ h, rfl, Or.inl rfl⟩
    · rcases List.mem_cons.mp h with rfl | h
      · exact ⟨(k₀, v₀), List.mem_cons_self _ _, rfl, Or.inl rfl⟩
      · obtain ⟨q, hq, h1, h2⟩ := ih h
        exact ⟨q, List.mem_cons_of_mem _ hq, h1, h2⟩

theorem mapUpdate_keys {k : String} {f : MutantState → MutantState}
    {l : List (String × MutantState)} :
    (mapUpdate k f l).map Prod.fst = l.map Prod.fst := by
  induction l with
  | nil => rfl
  | cons q t ih =>
    obtain ⟨k₀, v₀⟩ := q
    simp only [mapUpdate]
    split <;> simp [ih]

theorem mapUpdate_pairwise {k : String} {f : MutantState → MutantState}
    {l : List (String × MutantState)}
    (h : l.Pairwise (fun a b => a.1 < b.1)) :
    (mapUpdate k f l).Pairwise (fun a b => a.1 < b.1) := by
  have h1 : (l.map Prod.fst).Pairwise (· < ·) := List.pairwise_map.mpr h
  have h2 : ((mapUpdate k f l).map Prod.fst).Pairwise (· < ·) := by
    rw [mapUpdate_keys]; exact h1
  exact List.pairwise_map.mp h2

theorem mapLookup_mem {k : String} {v : MutantState}
    {l : List (String × MutantState)} (h : mapLookup k l = some v) :
    (k, v) ∈ l := by
  induction l with
  | nil => simp [mapLookup] at h
  | cons q t ih =>
    obtain ⟨k₀, v₀⟩ := q
    simp only [mapLookup] at h
    split at h
    · rename_i heq
      cases h
      exact heq ▸ List.mem_cons_self _ _
    · exact List.mem_cons_of_mem _ (ih h)

theorem mem_mapLookup {k : String} {v : MutantState}
    {l : List (String × MutantState)}
    (hwf : l.Pairwise (fun a b => a.1 < b.1)) (h : (k, v) ∈ l) :
    mapLookup k l = some v := by
  induction l with
  | nil => simp at h
  | cons q t ih =>
    obtain ⟨k₀, v₀⟩ := q
    rw [List.pairwise_cons] at hwf
    rcases List.mem_cons.mp h with hmem | hmem
    · cases hmem
      simp [mapLookup]
    · have hne : k ≠ k₀ := by
        rintro rfl
        have hlt := hwf.1 _ hmem
        simp at hlt
      simp only [mapLookup, if_neg hne]
      exact ih hwf.2 hmem

theorem mapLookup_mapInsert_self {k : String} {v : MutantState}
    {l : List (String × MutantState)} :
    mapLookup k (mapInsert k v l) = some v := by
  induction l with
  | nil => simp [mapInsert, mapLookup]
  | cons q t ih =>
    obtain ⟨k₀, v₀⟩ := q
    simp only [mapInsert]
    split
    · simp [mapLookup]
    · split
      · simp [mapLookup]
      · rename_i hnlt hne
        simp only [mapLookup, if_neg hne]
        exact ih

theorem mapLookup_mapInsert_ne {k k₁ : String} {v : MutantState}
    {l : List (String × MutantState)} (hne : k₁ ≠ k) :
    mapLookup k₁ (mapInsert k v l) = mapLookup k₁ l := by
  induction l with
  | nil => simp [mapInsert, mapLookup, hne]
  | cons q t ih =>
    obtain ⟨k₀, v₀⟩ := q
    simp only [mapInsert]
    split
    · simp [mapLookup, hne]
    · split
      · rename_i h1 h2
        subst h2
        simp [mapLookup, hne]
      · simp only [mapLookup]
        split
        · rfl
        · exact ih

theorem mapLookup_mapUpdate_self {k : String} {f : MutantState → MutantState}
    {l : List (String × MutantState)} :
    mapLookup k (mapUpdate k f l) = (mapLookup k l).map f := by
  induction l with
  | nil => simp [mapUpdate, mapLookup]
  | cons q t ih =>
    obtain ⟨k₀, v₀⟩ := q
    simp only [mapUpdate]
    split
    · rename_i heq
      simp [mapLookup, heq]
    · rename_i hne
      simp only [mapLookup, if_neg hne]
      exact ih

theorem mapLookup_mapUpdate_ne {k k₁ : String} {f : MutantState → MutantState}
    {l : List (String × MutantState)} (hne : k₁ ≠ k) :
    mapLookup k₁ (mapUpdate k f l) = mapLookup k₁ l := by
  induction l with
  | nil => simp [mapUpdate]
  | cons q t ih =>
    obtain ⟨k₀, v₀⟩ := q
    simp only [mapUpdate]
    split
    · rename_i heq
      subst heq
      simp [mapLookup, hne]
    · simp only [mapLookup]
      split
      · rfl
      · exact ih

theorem mapLookup_isSome_mapInsert {k k₁ : String} {v : MutantState}
    {l : List (String × MutantState)}
    (h : (mapLookup k₁ l).isSome) : (mapLookup k₁ (mapInsert k v l)).isSome := by
  by_cases hk : k₁ = k
  · subst hk
    simp [mapLookup_mapInsert_self]
  · rw [mapLookup_mapInsert_ne hk]
    exact h

theorem mapLookup_isSome_mapUpdate {k k₁ : String} {f : MutantState → MutantState}
    {l : List (String × MutantState)}
    (h : (mapLookup k₁ l).isSome) : (mapLookup k₁ (mapUpdate k f l)).isSome := by
  by_cases hk : k₁ = k
  · subst hk
    rw [mapLookup_mapUpdate_self]
    cases hl : mapLookup k₁ l with
    | none => rw [hl] at h; simp at h
    | some v => simp [hl]
  · rw [mapLookup_mapUpdate_ne hk]
    exact h

theorem replayLines_append (L₁ L₂ : List LogLine) :
    replayLines (L₁ ++ L₂) = L₂.foldl replayStep (replayLines L₁) := by
  simp [replayLines, List.foldl_append]

theorem replayStep_completed (s : RunSnapshot) (line : LogLine) :
    (replayStep s line).completed = (s.completed || line.isCompletedLine) := by
  rcases line with _ | _ | e
  · simp [replayStep, LogLine.isCompletedLine]
  · simp [replayStep, LogLine.isCompletedLine]
  · cases e <;> simp [replayStep, LogLine.isCompletedLine]

theorem foldl_replayStep_completed (L : List LogLine) :
    ∀ s : RunSnapshot,
      (L.foldl replayStep s).completed = (s.completed || L.any LogLine.isCompletedLine) := by
  induction L with
  | nil => simp
  | cons line t ih =>
    intro s
    simp only [List.foldl_cons, List.any_cons]
    rw [ih, replayStep_completed, Bool.or_assoc]

theorem replayStep_malformed (s : RunSnapshot) (line : LogLine) :
    (replayStep s line).malformed_lines =
      s.malformed_lines + (if line = LogLine.malformed then 1 else 0) := by
  rcases line with _ | _ | e
  · simp [replayStep]
  · simp [replayStep]
  · cases e <;> simp [replayStep]

theorem replayStep_lookup_untouched {X : String} {line : LogLine}
    (h : line.touches X = false) (s : RunSnapshot) :
    mapLookup X (replayStep s line).mutants = mapLookup X s.mutants := by
  rcases line with _ | _ | e
  · rfl
  · rfl
  · cases e with
    | runStarted => rfl
    | runResumed => rfl
    | mutantDiscovered r ts m =>
      have hne : X ≠ m.id := by
        intro e
        subst e
        simp [LogLine.touches, MutationEvent.touchedId] at h
      exact mapLookup_mapInsert_ne hne
    | mutantStarted r ts mid =>
      simp only [LogLine.touches, MutationEvent.touchedId] at h
      have hne : X ≠ mid := fun e => by
        subst e
        simp at h
      exact mapLookup_mapUpdate_ne hne
    | mutantFinished r ts mid outcome ec op ep sa fa d tr tf spv epv =>
      simp only [LogLine.touches, MutationEvent.touchedId] at h
      have hne : X ≠ mid := fun e => by
        subst e
        simp at h
      exact mapLookup_mapUpdate_ne hne
    | runInterrupted => rfl
    | runCompleted => rfl

theorem foldl_lookup_untouched {X : String} {L : List LogLine}
    (h : ∀ line ∈ L, line.touches X = false) :
    ∀ s : RunSnapshot,
      mapLookup X (L.foldl replayStep s).mutants = mapLookup X s.mutants := by
  induction L with
  | nil => intro s; rfl
  | cons line t ih =>
    intro s
    simp only [List.foldl_cons]
    rw [ih (fun l hl => h l (List.mem_cons_of_mem _ hl)),
      replayStep_lookup_untouched (h line (List.mem_cons_self _ _))]

theorem replayStep_lookup_isSome {X : String} (s : RunSnapshot) (line : LogLine)
    (h : (mapLookup X s.mutants).isSome) :
    (mapLookup X (replayStep s line).mutants).isSome := by
  rcases line with _ | _ | e
  · exact h
  · exact h
  · cases e with
    | runStarted => exact h
    | runResumed => exact h
    | mutantDiscovered r ts m => exact mapLookup_isSome_mapInsert h
    | mutantStarted r ts mid => exact mapLookup_isSome_mapUpdate h
    | mutantFinished r ts mid outcome ec op ep sa fa d tr tf spv epv =>
      exact mapLookup_isSome_mapUpdate h
    | runInterrupted => exact h
    | runCompleted => exact h

theorem foldl_lookup_isSome {X : String} (L : List LogLine) :
    ∀ s : RunSnapshot, (mapLookup X s.mutants).isSome →
      (mapLookup X (L.foldl replayStep s).mutants).isSome := by
  induction L with
  | nil => intro s h; exact h
  | cons line t ih =>
    intro s h
    exact ih _ (replayStep_lookup_isSome s line h)

theorem replayStep_running {X : String} {line : LogLine}
    (hline : line.resetsOrFinishes X = false) (s : RunSnapshot)
    {st : MutantState} (h : mapLookup X s.mutants = some st)
    (hrun : st.status = MutationStatus.running) :
    ∃ st₁, mapLookup X (replayStep s line).mutants = some st₁ ∧
      st₁.status = MutationStatus.running := by
  rcases line with _ | _ | e
  · exact ⟨st, h, hrun⟩
  · exact ⟨st, h, hrun⟩
  · cases e with
    | runStarted => exact ⟨st, h, hrun⟩
    | runResumed => exact ⟨st, h, hrun⟩
    | mutantDiscovered r ts m =>
      simp only [LogLine.resetsOrFinishes, beq_iff_eq] at hline
      have hne : X ≠ m.id := fun e => by simp [e] at hline
      rw [replayStep]
      exact ⟨st, (mapLookup_mapInsert_ne hne).trans h, hrun⟩
    | mutantStarted r ts mid =>
      by_cases hx : X = mid
      · subst hx
        refine ⟨{ st with status := .running, started_at_ms := some ts }, ?_, rfl⟩
        show mapLookup X (mapUpdate X _ s.mutants) = _
        rw [mapLookup_mapUpdate_self, h, Option.map_some']
      · exact ⟨st, (mapLookup_mapUpdate_ne hx).trans h, hrun⟩
    | mutantFinished r ts mid outcome ec op ep sa fa d tr tf spv epv =>
      simp only [LogLine.resetsOrFinishes, beq_iff_eq] at hline
      have hne : X ≠ mid := fun e => by simp [e] at hline
      exact ⟨st, (mapLookup_mapUpdate_ne hne).trans h, hrun⟩
    | runInterrupted => exact ⟨st, h, hrun⟩
    | runCompleted => exact ⟨st, h, hrun⟩

theorem foldl_running {X : String} {L : List LogLine}
    (hL : ∀ line ∈ L, line.resetsOrFinishes X = false) :
    ∀ s : RunSnapshot, ∀ st : MutantState,
      mapLookup X s.mutants = some st → st.status = MutationStatus.running →
      ∃ st₁, mapLookup X (L.foldl replayStep s).mutants = some st₁ ∧
        st₁.status = MutationStatus.running := by
  induction L with
  | nil => intro s st h hrun; exact ⟨st, h, hrun⟩
  | cons line t ih =>
    intro s st h hrun
    obtain ⟨st₁, h₁, hrun₁⟩ :=
      replayStep_running (hL line (List.mem_cons_self _ _)) s h hrun
    exact ih (fun l hl => hL l (List.mem_cons_of_mem _ hl)) _ st₁ h₁ hrun₁

theorem applyFinished_spec_eq (ts : Int) (outcome : MutationOutcome)
    (ec : Option Int) (op ep : Option String) (sa : Option Int) (d : Option Nat)
    (tr : List String) (tf : List TestFailure) (spv epv : Option String)
    (st : MutantState) :
    (applyFinished ts outcome ec op ep sa d tr tf spv epv st).spec = st.spec := by
  rfl

theorem mapInsert_wf {k : String} {v : MutantState}
    {l : List (String × MutantState)} (hwf : MapWF l) (hv : v.spec.id = k) :
    MapWF (mapInsert k v l) := by
  refine ⟨mapInsert_pairwise hwf.1, ?_⟩
  intro p hp
  rcases mapInsert_mem hp with rfl | hp
  · exact hv
  · exact hwf.2 p hp

theorem mapUpdate_wf {k : String} {f : MutantState → MutantState}
    {l : List (String × MutantState)} (hwf : MapWF l)
    (hf : ∀ st, (f st).spec = st.spec) : MapWF (mapUpdate k f l) := by
  refine ⟨mapUpdate_pairwise hwf.1, ?_⟩
  intro p hp
  obtain ⟨q, hq, h1, h2⟩ := mapUpdate_mem hp
  rcases h2 with h2 | h2
  · rw [h1, h2]
    exact hwf.2 q hq
  · rw [h1, h2, hf]
    exact hwf.2 q hq

theorem replayStep_wf {s : RunSnapshot} (hwf : MapWF s.mutants)
    (line : LogLine) : MapWF (replayStep s line).mutants := by
  rcases line with _ | _ | e
  · exact hwf
  · exact hwf
  · cases e with
    | runStarted => exact hwf
    | runResumed => exact hwf
    | mutantDiscovered r ts m => exact mapInsert_wf hwf rfl
    | mutantStarted r ts mid => exact mapUpdate_wf hwf (fun st => rfl)
    | mutantFinished r ts mid outcome ec op ep sa fa d tr tf spv epv =>
      exact mapUpdate_wf hwf (fun st => applyFinished_spec_eq _ _ _ _ _ _ _ _ _ _ _ _)
    | runInterrupted => exact hwf
    | runCompleted => exact hwf

theorem foldl_wf (L : List LogLine) :
    ∀ s : RunSnapshot, MapWF s.mutants → MapWF ((L.foldl replayStep s).mutants) := by
  induction L with
  | nil => intro s h; exact h
  | cons line t ih =>
    intro s h
    exact ih _ (replayStep_wf h line)

theorem replayLines_wf (L : List LogLine) : MapWF (replayLines L).mutants :=
  foldl_wf L initialSnapshot ⟨List.Pairwise.nil, by simp [initialSnapshot]⟩

theorem pending_mem_of_lookup {s : RunSnapshot} {k : String} {st : MutantState}
    (h : mapLookup k s.mutants = some st)
    (hterm : st.status.is_terminal = false) :
    st.spec ∈ s.pending_mutants := by
  have hmem : (k, st) ∈ s.mutants := mapLookup_mem h
  have hf : (k, st) ∈ s.mutants.filter (fun p => ! p.2.status.is_terminal) :=
    List.mem_filter.mpr ⟨hmem, by simp [hterm]⟩
  exact List.mem_map.mpr ⟨(k, st), hf, rfl⟩

theorem pending_mutants_iff {s : RunSnapshot} (hwf : MapWF s.mutants)
    (m : MutantSpec) :
    m ∈ s.pending_mutants ↔
      ∃ st, mapLookup m.id s.mutants = some st ∧ st.spec = m ∧
        st.status.is_terminal = false := by
  constructor
  · intro hm
    obtain ⟨p, hp, hspec⟩ := List.mem_map.mp hm
    obtain ⟨hmem, hpred⟩ := List.mem_filter.mp hp
    have hid : p.2.spec.id = p.1 := hwf.2 p hmem
    have hk : m.id = p.1 := by rw [← hspec, hid]
    refine ⟨p.2, ?_, hspec, by simpa using hpred⟩
    rw [hk]
    exact mem_mapLookup hwf.1 hmem
  · rintro ⟨st, hlook, hspec, hterm⟩
    exact hspec ▸ pending_mem_of_lookup hlook hterm

theorem survivor_mem_of_lookup {s : RunSnapshot} {k : String} {st : MutantState}
    (h : mapLookup k s.mutants = some st)
    (hst : st.status = MutationStatus.survived) :
    st.spec ∈ s.survivor_mutants := by
  have hmem : (k, st) ∈ s.mutants := mapLookup_mem h
  have hf : (k, st) ∈ s.mutants.filter
      (fun p => p.2.status = MutationStatus.survived) :=
    List.mem_filter.mpr ⟨hmem, by simp [hst]⟩
  exact List.mem_map.mpr ⟨(k, st), hf, rfl⟩

theorem survivor_mutants_iff {s : RunSnapshot} (hwf : MapWF s.mutants)
    (m : MutantSpec) :
    m ∈ s.survivor_mutants ↔
      ∃ st, mapLookup m.id s.mutants = some st ∧ st.spec = m ∧
        st.status = MutationStatus.survived := by
  constructor
  · intro hm
    obtain ⟨p, hp, hspec⟩ := List.mem_map.mp hm
    obtain ⟨hmem, hpred⟩ := List.mem_filter.mp hp
    have hid : p.2.spec.id = p.1 := hwf.2 p hmem
    have hk : m.id = p.1 := by rw [← hspec, hid]
    refine ⟨p.2, ?_, hspec, by simpa using hpred⟩
    rw [hk]
    exact mem_mapLookup hwf.1 hmem
  · rintro ⟨st, hlook, hspec, hst⟩
    exact hspec ▸ survivor_mem_of_lookup hlook hst

theorem filtered_ids_pairwise {s : RunSnapshot} (hwf : MapWF s.mutants)
    (pred : String × MutantState → Bool) :
    (((s.mutants.filter pred).map (fun p => p.2.spec)).map
      (fun m => m.id)).Pairwise (· < ·) := by
  have hpw : (s.mutants.filter pred).Pairwise (fun a b => a.1 < b.1) :=
    hwf.1.sublist (List.filter_sublist _)
  have heq : ((s.mutants.filter pred).map (fun p => p.2.spec)).map
      (fun m => m.id) = (s.mutants.filter pred).map Prod.fst := by
    rw [List.map_map]
    exact List.map_congr_left (fun p hp => hwf.2 p (List.mem_of_mem_filter hp))
  rw [heq]
  exact List.pairwise_map.mpr hpw

theorem pending_ids_pairwise {s : RunSnapshot} (hwf : MapWF s.mutants) :
    (s.pending_mutants.map (fun m => m.id)).Pairwise (· < ·) :=
  filtered_ids_pairwise hwf _

theorem survivor_ids_pairwise {s : RunSnapshot} (hwf : MapWF s.mutants) :
    (s.survivor_mutants.map (fun m => m.id)).Pairwise (· < ·) :=
  filtered_ids_pairwise hwf _

theorem pending_ids_nodup {s : RunSnapshot} (hwf : MapWF s.mutants) :
    (s.pending_mutants.map (fun m => m.id)).Nodup :=
  (pending_ids_pairwise hwf).imp ne_of_lt

theorem survivor_ids_nodup {s : RunSnapshot} (hwf : MapWF s.mutants) :
    (s.survivor_mutants.map (fun m => m.id)).Nodup :=
  (survivor_ids_pairwise hwf).imp ne_of_lt

theorem get_not_mem_take {l : List String} (h : l.Nodup) {k j : Nat}
    (hj : j < l.length) (hkj : k ≤ j) : l.get ⟨j, hj⟩ ∉ l.take k := by
  intro hmem
  rw [List.mem_iff_getElem] at hmem
  obtain ⟨i, hi, hx⟩ := hmem
  have hik : i < k := by
    rw [List.length_take] at hi
    exact lt_of_lt_of_le hi (min_le_left _ _)
  have hil : i < l.length := lt_of_lt_of_le hik (le_trans hkj (le_of_lt hj))
  rw [List.getElem_take] at hx
  have hget : l.get ⟨i, hil⟩ = l.get ⟨j, hj⟩ := by
    rw [List.get_eq_getElem, List.get_eq_getElem]
    exact hx
  have hij : i = j := congrArg Fin.val (h.get_inj_iff.mp hget)
  omega

theorem run_mutant_spec {rid : String} {m : MutantSpec}
    {exec : Except String MutantExecutionResult} {clock : Nat → Int}
    {t d : Nat} {evs : List MutationEvent} {t₁ : Nat}
    (h : run_mutant rid m exec clock t d = some (evs, t₁)) :
    ∀ e ∈ evs, e.isRunCompleted = false ∧ e.isRunInterrupted = false ∧
      e.touchedId = some m.id := by
  simp only [run_mutant] at h
  split at h
  · simp only [Option.some.injEq, Prod.mk.injEq] at h
    obtain ⟨hevs, -⟩ := h
    subst hevs
    intro e he
    rcases List.mem_cons.mp he with rfl | he
    · exact ⟨rfl, rfl, rfl⟩
    · rcases List.mem_cons.mp he with rfl | he
      · exact ⟨rfl, rfl, rfl⟩
      · simp at he
  · cases h

theorem execLoop_spec (rid reason : String) (engine : EngineExec)
    (flag : Nat → Bool) (clock : Nat → Int) (dur : Nat → Nat) :
    ∀ (sched : List MutantSpec) (i t : Nat) (evs : List MutationEvent)
      (broke : Bool) (i₁ t₁ : Nat),
      execLoop rid reason engine flag clock dur sched i t =
        some (evs, broke, i₁, t₁) →
      ∃ k, k ≤ sched.length ∧ i₁ = i + k ∧
        (∀ j, j < k → flag (i + j) = false) ∧
        (broke = true → k < sched.length ∧ flag (i + k) = true) ∧
        (broke = false → k = sched.length) ∧
        (∀ e ∈ evs, e.isRunCompleted = false) ∧
        ((∃ e ∈ evs, e.isRunInterrupted = true) ↔ broke = true) ∧
        (∀ e ∈ evs, ∀ X, e.touchedId = some X →
          X ∈ (sched.take k).map (fun m => m.id)) := by
  intro sched
  induction sched with
  | nil =>
    intro i t evs broke i₁ t₁ h
    simp only [execLoop, Option.some.injEq, Prod.mk.injEq] at h
    obtain ⟨h1, h2, h3, h4⟩ := h
    subst h1; subst h2; subst h3
    refine ⟨0, le_refl _, by omega, by omega, by simp, fun _ => rfl, by simp, ?_, by simp⟩
    simp
  | cons m rest ih =>
    intro i t evs broke i₁ t₁ h
    simp only [execLoop] at h
    split at h
    · rename_i hflag
      simp only [Option.some.injEq, Prod.mk.injEq] at h
      obtain ⟨h1, h2, h3, h4⟩ := h
      subst h1; subst h2; subst h3
      refine ⟨0, Nat.zero_le _, by omega, by omega, ?_, ?_, ?_, ?_, ?_⟩
      · intro _
        exact ⟨by simp, by simpa using hflag⟩
      · intro hb
        cases hb
      · intro e he
        rcases List.mem_cons.mp he with rfl | he
        · rfl
        · simp at he
      · constructor
        · intro _
          rfl
        · intro _
          exact ⟨_, List.mem_cons_self _ _, rfl⟩
      · intro e he X hX
        rcases List.mem_cons.mp he with rfl | he
        · simp [MutationEvent.touchedId] at hX
        · simp at he
    · rename_i hflag
      cases hrm : run_mutant rid m (engine m) clock t (dur i) with
      | none =>
        rw [hrm] at h
        cases h
      | some p =>
        obtain ⟨evs₀, t₀⟩ := p
        rw [hrm] at h
        replace h : (execLoop rid reason engine flag clock dur rest (i + 1) t₀).map
            (fun r => (evs₀ ++ r.1, r.2.1, r.2.2.1, r.2.2.2)) =
            some (evs, broke, i₁, t₁) := h
        obtain ⟨⟨evs₂, broke₂, i₂, t₂⟩, hrec, heq⟩ := Option.map_eq_some'.mp h
        simp only [Prod.mk.injEq] at heq
        obtain ⟨h1, h2, h3, h4⟩ := heq
        subst h1; subst h2; subst h3; subst h4
        obtain ⟨k, hk, hi₂, hpoll, hbt, hbf, hnc, hint, htouch⟩ :=
          ih (i + 1) t₀ evs₂ broke₂ i₂ t₂ hrec
        have hrms := run_mutant_spec hrm
        refine ⟨k + 1, by simpa using Nat.succ_le_succ hk, by omega, ?_, ?_, ?_, ?_, ?_, ?_⟩
        · intro j hj
          cases j with
          | zero => simpa using hflag
          | succ j₀ =>
            have := hpoll j₀ (by omega)
            have harith : i + 1 + j₀ = i + (j₀ + 1) := by omega
            rwa [harith] at this
        · intro hb
          obtain ⟨hlt, hfl⟩ := hbt hb
          refine ⟨by simpa using Nat.succ_lt_succ hlt, ?_⟩
          have harith : i + 1 + k = i + (k + 1) := by omega
          rwa [harith] at hfl
        · intro hb
          simp [hbf hb]
        · intro e he
          rcases List.mem_append.mp he with he | he
          · exact (hrms e he).1
          · exact hnc e he
        · constructor
          · rintro ⟨e, he, hei⟩
            rcases List.mem_append.mp he with he | he
            · exact absurd hei (by simp [(hrms e he).2.1])
            · exact hint.mp ⟨e, he, hei⟩
          · intro hb
            obtain ⟨e, he, hei⟩ := hint.mpr hb
            exact ⟨e, List.mem_append.mpr (Or.inr he), hei⟩
        · intro e he X hX
          rw [List.take_succ_cons]
          rcases List.mem_append.mp he with he | he
          · have := (hrms e he).2.2
            rw [this] at hX
            cases hX
            simp
          · have := htouch e he X hX
            simp only [List.map_cons]
            exact List.mem_cons_of_mem _ this

theorem discoverEvents_shape (rid : String) (clock : Nat → Int) :
    ∀ (ms : List MutantSpec) (t : Nat), ∀ e ∈ (discoverEvents rid clock ms t).1,
      ∃ m ∈ ms, ∃ ts, e = MutationEvent.mutantDiscovered rid ts m := by
  intro ms
  induction ms with
  | nil => intro t e he; simp [discoverEvents] at he
  | cons m rest ih =>
    intro t e he
    simp only [discoverEvents] at he
    rcases List.mem_cons.mp he with rfl | he
    · exact ⟨m, List.mem_cons_self _ _, clock t, rfl⟩
    · obtain ⟨m₁, hm₁, ts, rfl⟩ := ih (t + 1) e he
      exact ⟨m₁, List.mem_cons_of_mem _ hm₁, ts, rfl⟩

theorem discover_lines_untouched {rid : String} {clock : Nat → Int}
    {ms : List MutantSpec} {t : Nat} {X : String}
    (hX : X ∉ ms.map (fun m => m.id)) :
    ∀ line ∈ ((discoverEvents rid clock ms t).1).map LogLine.event,
      line.touches X = false := by
  intro line hline
  obtain ⟨e, he, rfl⟩ := List.mem_map.mp hline
  obtain ⟨m, hm, ts, rfl⟩ := discoverEvents_shape rid clock ms t e he
  have hne : m.id ≠ X := by
    intro hEq
    exact hX (hEq ▸ List.mem_map.mpr ⟨m, hm, rfl⟩)
  simp [LogLine.touches, MutationEvent.touchedId, hne]

theorem discover_replay_lookup (rid : String) (clock : Nat → Int) :
    ∀ (ms : List MutantSpec) (t : Nat) (s : RunSnapshot) (N : Nat)
      (hN : N < ms.length),
      (ms.map (fun m => m.id)).Nodup →
      mapLookup (ms.get ⟨N, hN⟩).id
          ((((discoverEvents rid clock ms t).1).map LogLine.event).foldl
            replayStep s).mutants
        = some (freshMutantState (ms.get ⟨N, hN⟩)) := by
  intro ms
  induction ms with
  | nil => intro t s N hN; simp at hN
  | cons m rest ih =>
    intro t s N hN hnd
    rw [List.map_cons, List.nodup_cons] at hnd
    obtain ⟨hm, hrest⟩ := hnd
    have hstep : ((discoverEvents rid clock (m :: rest) t).1).map LogLine.event =
        LogLine.event (MutationEvent.mutantDiscovered rid (clock t) m) ::
          ((discoverEvents rid clock rest (t + 1)).1).map LogLine.event := rfl
    rw [hstep]
    cases N with
    | zero =>
      simp only [List.foldl_cons, List.get]
      rw [foldl_lookup_untouched (discover_lines_untouched hm)]
      show mapLookup m.id (mapInsert m.id (freshMutantState m) s.mutants) = _
      exact mapLookup_mapInsert_self
    | succ N₀ =>
      simp only [List.foldl_cons, List.get]
      exact ih (t + 1) _ N₀ (by simpa using hN) hrest

theorem resume_scheduled_dedup_eq_filter :
    ∀ (ps : List MutantSpec) (seen : List String),
      (ps.map (fun m => m.id)).Nodup →
      resume_scheduled_dedup seen ps =
        ps.filter (fun m => ! seen.contains m.id) := by
  intro ps
  induction ps with
  | nil => intro seen _; rfl
  | cons m rest ih =>
    intro seen hnd
    rw [List.map_cons, List.nodup_cons] at hnd
    obtain ⟨hm, hrest⟩ := hnd
    simp only [resume_scheduled_dedup, List.filter_cons]
    cases hc : seen.contains m.id with
    | true =>
      rw [if_pos rfl, ih seen hrest, if_neg (by decide)]
    | false =>
      rw [if_neg (by decide), ih (m.id :: seen) hrest, if_pos (by decide)]
      congr 1
      refine List.filter_congr ?_
      intro x hx
      have hne : x.id ≠ m.id := by
        intro hEq
        exact hm (hEq ▸ List.mem_map.mpr ⟨x, hx, rfl⟩)
      have hbeq : (x.id == m.id) = false := beq_eq_false_iff_ne.mpr hne
      show (! (m.id :: seen).contains x.id) = (! seen.contains x.id)
      rw [List.contains_cons, hbeq, Bool.false_or]

theorem resume_scheduled_of_completed {s : RunSnapshot}
    (hc : s.completed = true) : resume_scheduled s = s.survivor_mutants := by
  simp [resume_scheduled, hc]

theorem resume_scheduled_eq_filter {s : RunSnapshot} (hwf : MapWF s.mutants)
    (hc : s.completed = false) :
    resume_scheduled s = s.survivor_mutants ++
      s.pending_mutants.filter
        (fun m => ! ((s.survivor_mutants.map (fun x => x.id)).contains m.id)) := by
  simp only [resume_scheduled, hc]
  rw [if_neg (by decide)]
  rw [resume_scheduled_dedup_eq_filter _ _ (pending_ids_nodup hwf)]

theorem resume_scheduled_ids_nodup {s : RunSnapshot} (hwf : MapWF s.mutants) :
    ((resume_scheduled s).map (fun m => m.id)).Nodup := by
  by_cases hc : s.completed = true
  · rw [resume_scheduled_of_completed hc]
    exact survivor_ids_nodup hwf
  · rw [resume_scheduled_eq_filter hwf (by simpa using hc), List.map_append]
    refine List.nodup_append.mpr ⟨survivor_ids_nodup hwf, ?_, ?_⟩
    · exact (pending_ids_nodup hwf).sublist ((List.filter_sublist _).map _)
    · intro a ha hb
      obtain ⟨x, hx, rfl⟩ := List.mem_map.mp hb
      have hpred : (! ((s.survivor_mutants.map (fun x => x.id)).contains x.id))
          = true := (List.mem_filter.mp hx).2
      have hmem : x.id ∈ s.survivor_mutants.map (fun x => x.id) := ha
      have hct : (s.survivor_mutants.map (fun x => x.id)).contains x.id = true := by
        simpa using hmem
      rw [hct] at hpred
      exact absurd hpred (by decide)

/-- C8: appending one syntactically invalid line after any event sequence
increments `malformed_lines` by exactly one and leaves the derived
`run_id`, per-mutant states and `interrupted`/`completed` flags unchanged;
a line that fails to parse never aborts replay (replay stays total). -/
theorem malformed_tail_preserves_state (L : List LogLine) :
    (replayLines (L ++ [LogLine.malformed])).malformed_lines =
      (replayLines L).malformed_lines + 1 ∧
    (replayLines (L ++ [LogLine.malformed])).run_id = (replayLines L).run_id ∧
    (replayLines (L ++ [LogLine.malformed])).mutants = (replayLines L).mutants ∧
    (replayLines (L ++ [LogLine.malformed])).interrupted =
      (replayLines L).interrupted ∧
    (replayLines (L ++ [LogLine.malformed])).completed =
      (replayLines L).completed := by
  have h : replayLines (L ++ [LogLine.malformed]) =
      { replayLines L with
        malformed_lines := (replayLines L).malformed_lines + 1 } := by
    rw [replayLines_append]
    rfl
  rw [h]
  exact ⟨rfl, rfl, rfl, rfl, rfl⟩

/-- C2: `classify_outcome` applies the keyword heuristics in a fixed
priority over the ASCII-lowercased combined output — the "zero mutants"
banner phrases give `Error` with the trimmed text; then `timeout`, then
`unviable`, then `survived`/`missed`, then `killed`/`caught`; with no
keyword, exit status 0 gives `Killed` and a nonzero exit gives `Error`
carrying the (trimmed) captured text. -/
theorem classify_outcome_priority (success : Bool) (text : String) :
    (hasZeroMutantsPhrase (asciiLower text.toList) = true →
      classify_outcome success text = MutationOutcome.error (trimString text)) ∧
    (hasZeroMutantsPhrase (asciiLower text.toList) = false →
      containsSeq "timeout".toList (asciiLower text.toList) = true →
      classify_outcome success text = MutationOutcome.timeout) ∧
    (hasZeroMutantsPhrase (asciiLower text.toList) = false →
      containsSeq "timeout".toList (asciiLower text.toList) = false →
      containsSeq "unviable".toList (asciiLower text.toList) = true →
      classify_outcome success text = MutationOutcome.unviable) ∧
    (hasZeroMutantsPhrase (asciiLower text.toList) = false →
      containsSeq "timeout".toList (asciiLower text.toList) = false →
      containsSeq "unviable".toList (asciiLower text.toList) = false →
      (containsSeq "survived".toList (asciiLower text.toList) ||
        containsSeq "missed".toList (asciiLower text.toList)) = true →
      classify_outcome success text = MutationOutcome.survived) ∧
    (hasZeroMutantsPhrase (asciiLower text.toList) = false →
      containsSeq "timeout".toList (asciiLower text.toList) = false →
      containsSeq "unviable".toList (asciiLower text.toList) = false →
      (containsSeq "survived".toList (asciiLower text.toList) ||
        containsSeq "missed".toList (asciiLower text.toList)) = false →
      (containsSeq "killed".toList (asciiLower text.toList) ||
        containsSeq "caught".toList (asciiLower text.toList)) = true →
      classify_outcome success text = MutationOutcome.killed) ∧
    (hasZeroMutantsPhrase (asciiLower text.toList) = false →
      containsSeq "timeout".toList (asciiLower text.toList) = false →
      containsSeq "unviable".toList (asciiLower text.toList) = false →
      (containsSeq "survived".toList (asciiLower text.toList) ||
        containsSeq "missed".toList (asciiLower text.toList)) = false →
      (containsSeq "killed".toList (asciiLower text.toList) ||
        containsSeq "caught".toList (asciiLower text.toList)) = false →
      success = true →
      classify_outcome success text = MutationOutcome.killed) ∧
    (hasZeroMutantsPhrase (asciiLower text.toList) = false →
      containsSeq "timeout".toList (asciiLower text.toList) = false →
      containsSeq "unviable".toList (asciiLower text.toList) = false →
      (containsSeq "survived".toList (asciiLower text.toList) ||
        containsSeq "missed".toList (asciiLower text.toList)) = false →
      (containsSeq "killed".toList (asciiLower text.toList) ||
        containsSeq "caught".toList (asciiLower text.toList)) = false →
      success = false →
      classify_outcome success text = MutationOutcome.error (trimString text)) := by
  have neg : ∀ {b : Bool}, b = false → ¬(b = true) := by
    intro b h ht
    rw [h] at ht
    exact absurd ht (by decide)
  refine ⟨?_, ?_, ?_, ?_, ?_, ?_, ?_⟩
  · intro h1
    simp only [classify_outcome]
    rw [if_pos h1]
  · intro h1 h2
    simp only [classify_outcome]
    rw [if_neg (neg h1), if_pos h2]
  · intro h1 h2 h3
    simp only [classify_outcome]
    rw [if_neg (neg h1), if_neg (neg h2), if_pos h3]
  · intro h1 h2 h3 h4
    simp only [classify_outcome]
    rw [if_neg (neg h1), if_neg (neg h2), if_neg (neg h3), if_pos h4]
  · intro h1 h2 h3 h4 h5
    simp only [classify_outcome]
    rw [if_neg (neg h1), if_neg (neg h2), if_neg (neg h3), if_neg (neg h4),
      if_pos h5]
  · intro h1 h2 h3 h4 h5 h6
    simp only [classify_outcome]
    rw [if_neg (neg h1), if_neg (neg h2), if_neg (neg h3), if_neg (neg h4),
      if_neg (neg h5), if_pos h6]
  · intro h1 h2 h3 h4 h5 h6
    simp only [classify_outcome]
    rw [if_neg (neg h1), if_neg (neg h2), if_neg (neg h3), if_neg (neg h4),
      if_neg (neg h5), if_neg (neg h6)]

/-- C2 witness: the spec example `"mutant survived"` with exit code 0
classifies as `Survived`. -/
theorem classify_outcome_priority_witness :
    classify_outcome true "mutant survived" = MutationOutcome.survived :=
  (classify_outcome_priority true "mutant survived").2.2.2.1
    (by decide) (by decide) (by decide) (by decide)

/-- C7: `resume_run` on a completed run with no survivors, and
`rerun_survivors` on a run with no survivors, both return the replayed
snapshot unchanged and append no new events. -/
theorem no_survivors_resume_frame :
    (∀ (rid : String) (prior : List LogLine) (engine : EngineExec)
        (flag : Nat → Bool) (clock : Nat → Int) (dur : Nat → Nat),
      (replayLines prior).completed = true →
      (replayLines prior).survivor_mutants = [] →
      resume_run rid prior engine flag clock dur =
        some (replayLines prior, [])) ∧
    (∀ (rid : String) (prior : List LogLine) (engine : EngineExec)
        (flag : Nat → Bool) (clock : Nat → Int) (dur : Nat → Nat),
      (replayLines prior).survivor_mutants = [] →
      rerun_survivors rid prior engine flag clock dur =
        some (replayLines prior, [])) := by
  constructor
  · intro rid prior engine flag clock dur hc hs
    simp only [resume_run]
    rw [if_pos]
    rw [hc, hs]
    rfl
  · intro rid prior engine flag clock dur hs
    simp only [rerun_survivors]
    rw [if_pos]
    rw [hs]
    rfl

/-- C7 witness: a log holding just `RunCompleted` resumes to the same
snapshot with no appended events. -/
theorem no_survivors_resume_frame_witness :
    resume_run "r" [LogLine.event (MutationEvent.runCompleted "r" 0)] engKill
        flagF clock0 dur0 =
      some (replayLines [LogLine.event (MutationEvent.runCompleted "r" 0)], []) :=
  no_survivors_resume_frame.1 "r" _ engKill flagF clock0 dur0
    (by decide) (by decide)

/-- C9: whenever `total - skipped - unviable` is positive, the mutation
score is `killed / (total - skipped - unviable) * 100` (exactly, in the
rational model of the `f64` arithmetic); a completed two-mutant run with
one kill and one survivor scores 50, and with two kills scores 100. -/
theorem mutation_score_formula :
    (∀ s : RunSnapshot,
      0 < (RunSummary.from_snapshot s).total - (RunSummary.from_snapshot s).skipped
          - (RunSummary.from_snapshot s).unviable →
      (RunSummary.from_snapshot s).mutation_score =
        ((RunSummary.from_snapshot s).killed : ℚ) /
          (((RunSummary.from_snapshot s).total : ℚ)
            - ((RunSummary.from_snapshot s).skipped : ℚ)
            - ((RunSummary.from_snapshot s).unviable : ℚ)) * 100) ∧
    ((replayLines c9logKS).completed = true ∧
      (RunSummary.from_snapshot (replayLines c9logKS)).mutation_score = 50) ∧
    ((replayLines c9logKK).completed = true ∧
      (RunSummary.from_snapshot (replayLines c9logKK)).mutation_score = 100) := by
  refine ⟨?_, ⟨by decide, ?_⟩, ⟨by decide, ?_⟩⟩
  · intro s h
    simp only [RunSummary.from_snapshot] at h ⊢
    rw [Nat.sub_sub] at h
    have hlt : (s.mutants.map (fun p => p.2.status)).count MutationStatus.skipped +
        (s.mutants.map (fun p => p.2.status)).count MutationStatus.unviable <
        s.mutants.length := by omega
    rw [if_pos h]
    rw [Nat.cast_sub (le_of_lt hlt), Nat.cast_add, sub_add_eq_sub_sub,
      div_mul_eq_mul_div]
  · have hk : ((replayLines c9logKS).mutants.map (fun p => p.2.status)).count
        MutationStatus.killed = 1 := by decide
    have hs : ((replayLines c9logKS).mutants.map (fun p => p.2.status)).count
        MutationStatus.skipped = 0 := by decide
    have hu : ((replayLines c9logKS).mutants.map (fun p => p.2.status)).count
        MutationStatus.unviable = 0 := by decide
    have hl : (replayLines c9logKS).mutants.length = 2 := by decide
    simp only [RunSummary.from_snapshot, hk, hs, hu, hl]
    norm_num
  · have hk : ((replayLines c9logKK).mutants.map (fun p => p.2.status)).count
        MutationStatus.killed = 2 := by decide
    have hs : ((replayLines c9logKK).mutants.map (fun p => p.2.status)).count
        MutationStatus.skipped = 0 := by decide
    have hu : ((replayLines c9logKK).mutants.map (fun p => p.2.status)).count
        MutationStatus.unviable = 0 := by decide
    have hl : (replayLines c9logKK).mutants.length = 2 := by decide
    simp only [RunSummary.from_snapshot, hk, hs, hu, hl]
    norm_num

/-- C9 witness: the killed/survived two-mutant run instantiates the score
formula with a positive testable count. -/
theorem mutation_score_formula_witness :
    0 < (RunSummary.from_snapshot (replayLines c9logKS)).total
        - (RunSummary.from_snapshot (replayLines c9logKS)).skipped
        - (RunSummary.from_snapshot (replayLines c9logKS)).unviable ∧
    (RunSummary.from_snapshot (replayLines c9logKS)).mutation_score =
      ((RunSummary.from_snapshot (replayLines c9logKS)).killed : ℚ) /
        (((RunSummary.from_snapshot (replayLines c9logKS)).total : ℚ)
          - ((RunSummary.from_snapshot (replayLines c9logKS)).skipped : ℚ)
          - ((RunSummary.from_snapshot (replayLines c9logKS)).unviable : ℚ)) * 100 :=
  ⟨by decide, mutation_score_formula.1 (replayLines c9logKS) (by decide)⟩

theorem takeBytes_replicate (rest : List Char) (k : Nat) :
    ∀ n : Nat, takeBytes (List.replicate n 'a' ++ rest) (n + k) =
      (takeBytes rest k).map (fun cs => List.replicate n 'a' ++ cs) := by
  intro n
  induction n with
  | zero =>
    cases h : takeBytes rest k <;> simp [h]
  | succ n ih =>
    have hshape : List.replicate (n + 1) 'a' ++ rest =
        'a' :: (List.replicate n 'a' ++ rest) := by
      simp [List.replicate_succ]
    have harith : n + 1 + k = (n + k) + 1 := by omega
    rw [hshape, harith]
    simp only [takeBytes]
    have hsize : ('a').utf8Size = 1 := by decide
    rw [hsize, if_pos (by omega)]
    have harith₂ : n + k + 1 - 1 = n + k := by omega
    rw [harith₂, ih]
    cases h : takeBytes rest k <;> simp [h, List.replicate_succ]

/-- C10 (refuted — code bug): `truncate_preview` is not total.  On an
input of 4092 one-byte characters followed by a three-byte character
(4097 bytes in total), the slice at byte index 4093 used by the source
falls inside the multi-byte character, so the Rust code panics (modelled
as `none`) instead of returning a bounded preview. -/
theorem truncate_preview_panics_on_multibyte :
    utf8Len c10bad = 4097 ∧ truncate_preview c10bad = none := by
  have htl : c10bad.toList = List.replicate 4092 'a' ++ ['€', 'a', 'a'] := rfl
  have hlen : utf8Len c10bad = 4097 := by
    unfold utf8Len
    rw [htl, List.map_append, List.sum_append, List.map_replicate]
    have h1 : ('a').utf8Size = 1 := by decide
    have h3 : ((['€', 'a', 'a'] : List Char).map Char.utf8Size).sum = 5 := by decide
    rw [h1, h3, List.sum_replicate, smul_eq_mul]
  refine ⟨hlen, ?_⟩
  unfold truncate_preview
  rw [hlen]
  rw [if_neg (by decide)]
  have hidx : OUTPUT_PREVIEW_MAX_BYTES - 3 = 4092 + 1 := by decide
  rw [hidx, htl, takeBytes_replicate]
  have hrest : takeBytes ['€', 'a', 'a'] 1 = none := by decide
  rw [hrest]
  rfl

/-- C3: a log with a `MutantDiscovered` for a mutant followed (possibly
later) by a `MutantStarted` with no subsequent `MutantFinished` (or
re-discovery) replays that mutant as `Running` and lists it in
`pending_mutants()`; and for every log, `pending_mutants()` is exactly the
non-terminal (`Pending`/`Running`) mutants in ascending-id order. -/
theorem crash_recovery_running_pending :
    (∀ (L₁ L₂ : List LogLine) (r₀ r : String) (ts₀ ts : Int) (m : MutantSpec),
      LogLine.event (MutationEvent.mutantDiscovered r₀ ts₀ m) ∈ L₁ →
      (∀ line ∈ L₂, line.resetsOrFinishes m.id = false) →
      ∃ st, mapLookup m.id
          (replayLines (L₁ ++
            LogLine.event (MutationEvent.mutantStarted r ts m.id) :: L₂)).mutants
        = some st ∧ st.status = MutationStatus.running ∧
        st.spec ∈ (replayLines (L₁ ++
          LogLine.event (MutationEvent.mutantStarted r ts m.id) :: L₂)).pending_mutants) ∧
    (∀ L : List LogLine,
      (((replayLines L).pending_mutants.map (fun m => m.id)).Pairwise (· < ·)) ∧
      (∀ m : MutantSpec, m ∈ (replayLines L).pending_mutants ↔
        ∃ st, mapLookup m.id (replayLines L).mutants = some st ∧ st.spec = m ∧
          st.status.is_terminal = false)) := by
  constructor
  · intro L₁ L₂ r₀ r ts₀ ts m hdisc hL₂
    have hsome : (mapLookup m.id (replayLines L₁).mutants).isSome := by
      obtain ⟨A, B, hAB⟩ := List.append_of_mem hdisc
      subst hAB
      rw [replayLines_append]
      simp only [List.foldl_cons]
      apply foldl_lookup_isSome
      show (mapLookup m.id (mapInsert m.id (freshMutantState m)
        (replayLines A).mutants)).isSome
      rw [mapLookup_mapInsert_self]
      rfl
    obtain ⟨st₀, hst₀⟩ := Option.isSome_iff_exists.mp hsome
    rw [replayLines_append]
    simp only [List.foldl_cons]
    have hstart : mapLookup m.id
        (replayStep (replayLines L₁)
          (LogLine.event (MutationEvent.mutantStarted r ts m.id))).mutants =
        some { st₀ with status := .running, started_at_ms := some ts } := by
      show mapLookup m.id (mapUpdate m.id _ (replayLines L₁).mutants) = _
      rw [mapLookup_mapUpdate_self, hst₀, Option.map_some']
    obtain ⟨st, hst, hrun⟩ := foldl_running hL₂ _ _ hstart rfl
    refine ⟨st, hst, hrun, ?_⟩
    apply pending_mem_of_lookup hst
    rw [hrun]
    rfl
  · intro L
    exact ⟨pending_ids_pairwise (replayLines_wf L),
      fun m => pending_mutants_iff (replayLines_wf L) m⟩

/-- C3 witness: a discovered-then-started mutant with no finish replays as
`Running` and is pending. -/
theorem crash_recovery_running_pending_witness :
    ∃ st, mapLookup mutA.id
        (replayLines ([LogLine.event (MutationEvent.mutantDiscovered "r" 0 mutA)] ++
          LogLine.event (MutationEvent.mutantStarted "r" 0 mutA.id) :: [])).mutants
      = some st ∧ st.status = MutationStatus.running ∧
      st.spec ∈ (replayLines ([LogLine.event (MutationEvent.mutantDiscovered "r" 0 mutA)] ++
        LogLine.event (MutationEvent.mutantStarted "r" 0 mutA.id) :: [])).pending_mutants :=
  crash_recovery_running_pending.1 _ [] "r" "r" 0 0 mutA
    (List.mem_cons_self _ _) (by simp)

/-- C5 counterexample: `rerun_survivors` on a run with one survivor, never
interrupted, executes its whole queue yet appends three events
(`RunResumed`, `MutantStarted`, `MutantFinished`) and no `RunCompleted`
— refuting the claim that all three entry points append `RunCompleted`
after an uninterrupted loop. -/
theorem rerun_survivors_appends_no_completion :
    ((rerun_survivors "r" c5prior engKill flagF clock0 dur0).map
      (fun p => (p.2.length, p.2.any MutationEvent.isRunInterrupted,
        p.2.any MutationEvent.isRunCompleted))) = some (3, false, false) := by
  decide

theorem run_new_fresh_cases {rid : String} {tmo : Option Nat}
    {filt : Option String} {meta : RunMetadata} {discovered : List MutantSpec}
    {engine : EngineExec} {flag : Nat → Bool} {clock : Nat → Int}
    {dur : Nat → Nat} {out : List MutationEvent}
    (h : run_new_fresh rid tmo filt meta discovered engine flag clock dur =
      some out) :
    ∃ loopEvs broke i₁ t₁,
      execLoop rid "received interrupt signal" engine flag clock dur
          (run_new_filter filt discovered) 0
          (discoverEvents rid clock (run_new_filter filt discovered) 1).2 =
        some (loopEvs, broke, i₁, t₁) ∧
      (((broke || flag i₁) = true ∧
          out = MutationEvent.runStarted rid (clock 0)
              (run_new_filter filt discovered).length
              (some ⟨tmo, filt, none, none⟩) (some meta) ::
            ((discoverEvents rid clock (run_new_filter filt discovered) 1).1 ++
              loopEvs)) ∨
        ((broke || flag i₁) = false ∧
          out = MutationEvent.runStarted rid (clock 0)
              (run_new_filter filt discovered).length
              (some ⟨tmo, filt, none, none⟩) (some meta) ::
            ((discoverEvents rid clock (run_new_filter filt discovered) 1).1 ++
              loopEvs ++ [MutationEvent.runCompleted rid (clock t₁)]))) := by
  simp only [run_new_fresh] at h
  cases hloop : execLoop rid "received interrupt signal" engine flag clock dur
      (run_new_filter filt discovered) 0
      (discoverEvents rid clock (run_new_filter filt discovered) 1).2 with
  | none => rw [hloop] at h; cases h
  | some q =>
    obtain ⟨loopEvs, broke, i₁, t₁⟩ := q
    rw [hloop] at h
    replace h : (if broke || flag i₁ then
        some (MutationEvent.runStarted rid (clock 0)
            (run_new_filter filt discovered).length
            (some ⟨tmo, filt, none, none⟩) (some meta) ::
          (discoverEvents rid clock (run_new_filter filt discovered) 1).1 ++
            loopEvs)
      else
        some (MutationEvent.runStarted rid (clock 0)
            (run_new_filter filt discovered).length
            (some ⟨tmo, filt, none, none⟩) (some meta) ::
          (discoverEvents rid clock (run_new_filter filt discovered) 1).1 ++
            loopEvs ++ [MutationEvent.runCompleted rid (clock t₁)])) =
        some out := h
    refine ⟨loopEvs, broke, i₁, t₁, rfl, ?_⟩
    cases hbfi : (broke || flag i₁) with
    | true =>
      rw [hbfi, if_pos rfl, Option.some.injEq] at h
      left
      refine ⟨rfl, ?_⟩
      rw [← h]
      simp [List.append_assoc]
    | false =>
      rw [hbfi, if_neg (by decide), Option.some.injEq] at h
      right
      refine ⟨rfl, ?_⟩
      rw [← h]
      simp [List.append_assoc]

theorem resume_run_cases {rid : String} {prior : List LogLine}
    {engine : EngineExec} {flag : Nat → Bool} {clock : Nat → Int}
    {dur : Nat → Nat} {snap : RunSnapshot} {out : List MutationEvent}
    (h : resume_run rid prior engine flag clock dur = some (snap, out)) :
    ((replayLines prior).completed = true ∧
      (replayLines prior).survivor_mutants = [] ∧
      snap = replayLines prior ∧ out = []) ∨
    (((replayLines prior).completed &&
        (replayLines prior).survivor_mutants.isEmpty) = false ∧
      ∃ loopEvs broke i₁ t₁,
        execLoop rid "received interrupt signal during resume" engine flag clock
            dur (resume_scheduled (replayLines prior)) 0 1 =
          some (loopEvs, broke, i₁, t₁) ∧
        (((broke || flag i₁) = true ∧
            out = MutationEvent.runResumed rid (clock 0)
                (resume_scheduled (replayLines prior)).length :: loopEvs) ∨
          ((broke || flag i₁) = false ∧
            out = MutationEvent.runResumed rid (clock 0)
                (resume_scheduled (replayLines prior)).length ::
              (loopEvs ++ [MutationEvent.runCompleted rid (clock t₁)]))) ∧
        snap = replayLines (prior ++ out.map LogLine.event)) := by
  simp only [resume_run] at h
  cases hcond : ((replayLines prior).completed &&
      (replayLines prior).survivor_mutants.isEmpty) with
  | true =>
    rw [hcond, if_pos rfl, Option.some.injEq, Prod.mk.injEq] at h
    rw [Bool.and_eq_true] at hcond
    exact Or.inl ⟨hcond.1, List.isEmpty_iff.mp hcond.2, h.1.symm, h.2.symm⟩
  | false =>
    rw [hcond, if_neg (by decide)] at h
    cases hloop : execLoop rid "received interrupt signal during resume" engine
        flag clock dur (resume_scheduled (replayLines prior)) 0 1 with
    | none => rw [hloop] at h; cases h
    | some q =>
      obtain ⟨loopEvs, broke, i₁, t₁⟩ := q
      rw [hloop] at h
      replace h : some
          (replayLines (prior ++
            (if broke || flag i₁ then
              MutationEvent.runResumed rid (clock 0)
                  (resume_scheduled (replayLines prior)).length :: loopEvs
            else
              MutationEvent.runResumed rid (clock 0)
                  (resume_scheduled (replayLines prior)).length ::
                (loopEvs ++
                  [MutationEvent.runCompleted rid (clock t₁)])).map LogLine.event),
          if broke || flag i₁ then
            MutationEvent.runResumed rid (clock 0)
                (resume_scheduled (replayLines prior)).length :: loopEvs
          else
            MutationEvent.runResumed rid (clock 0)
                (resume_scheduled (replayLines prior)).length ::
              (loopEvs ++ [MutationEvent.runCompleted rid (clock t₁)])) =
        some (snap, out) := h
    
      refine Or.inr ⟨rfl, loopEvs, broke, i₁, t₁, rfl, ?_⟩
      cases hbfi : (broke || flag i₁) with
      | true =>
        rw [hbfi, if_pos rfl, Option.some.injEq, Prod.mk.injEq] at h
        exact ⟨Or.inl ⟨rfl, h.2.symm⟩, by rw [← h.2, ← h.1]⟩
      | false =>
        rw [hbfi, if_neg (by decide), Option.some.injEq, Prod.mk.injEq] at h
        exact ⟨Or.inr ⟨rfl, h.2.symm⟩, by rw [← h.2, ← h.1]⟩

theorem rerun_survivors_cases {rid : String} {prior : List LogLine}
    {engine : EngineExec} {flag : Nat → Bool} {clock : Nat → Int}
    {dur : Nat → Nat} {snap : RunSnapshot} {out : List MutationEvent}
    (h : rerun_survivors rid prior engine flag clock dur = some (snap, out)) :
    ((replayLines prior).survivor_mutants = [] ∧
      snap = replayLines prior ∧ out = []) ∨
    ((replayLines prior).survivor_mutants ≠ [] ∧
      ∃ loopEvs broke i₁ t₁,
        execLoop rid "received interrupt signal during survivor rerun" engine
            flag clock dur (replayLines prior).survivor_mutants 0 1 =
          some (loopEvs, broke, i₁, t₁) ∧
        out = MutationEvent.runResumed rid (clock 0)
            (replayLines prior).survivor_mutants.length :: loopEvs ∧
        snap = replayLines (prior ++ out.map LogLine.event)) := by
  simp only [rerun_survivors] at h
  cases hempty : (replayLines prior).survivor_mutants.isEmpty with
  | true =>
    rw [hempty, if_pos rfl, Option.some.injEq, Prod.mk.injEq] at h
    exact Or.inl ⟨List.isEmpty_iff.mp hempty, h.1.symm, h.2.symm⟩
  | false =>
    rw [hempty, if_neg (by decide)] at h
    cases hloop : execLoop rid "received interrupt signal during survivor rerun"
        engine flag clock dur (replayLines prior).survivor_mutants 0 1 with
    | none => rw [hloop] at h; cases h
    | some q =>
      obtain ⟨loopEvs, broke, i₁, t₁⟩ := q
      rw [hloop] at h
      replace h : some
          (replayLines (prior ++
            (MutationEvent.runResumed rid (clock 0)
                (replayLines prior).survivor_mutants.length ::
              loopEvs).map LogLine.event),
          MutationEvent.runResumed rid (clock 0)
              (replayLines prior).survivor_mutants.length :: loopEvs) =
        some (snap, out) := h
      rw [Option.some.injEq, Prod.mk.injEq] at h
      refine Or.inr ⟨fun he => ?_, loopEvs, broke, i₁, t₁, rfl, h.2.symm,
        by rw [← h.2, ← h.1]⟩
      rw [he] at hempty
      cases hempty

theorem discover_event_flags {rid : String} {clock : Nat → Int}
    {ms : List MutantSpec} {t : Nat} :
    ∀ e ∈ (discoverEvents rid clock ms t).1,
      e.isRunCompleted = false ∧ e.isRunInterrupted = false ∧
        e.startedId = none := by
  intro e he
  obtain ⟨m, hm, ts, rfl⟩ := discoverEvents_shape rid clock ms t e he
  exact ⟨rfl, rfl, rfl⟩

/-- C5 (amended): after an uninterrupted loop, `run_new` and `resume_run`
append `RunCompleted` as the last event of their segment; `rerun_survivors`
never appends a `RunCompleted` (its snapshot is left not-completed unless a
prior event already completed it). -/
theorem run_completed_after_loop :
    (∀ (rid : String) (tmo : Option Nat) (filt : Option String)
        (meta : RunMetadata) (discovered : List MutantSpec)
        (engine : EngineExec) (flag : Nat → Bool) (clock : Nat → Int)
        (dur : Nat → Nat) (out : List MutationEvent),
      run_new_fresh rid tmo filt meta discovered engine flag clock dur =
        some out →
      (∀ i, flag i = false) →
      ∃ t, out.getLast? = some (MutationEvent.runCompleted rid t)) ∧
    (∀ (rid : String) (prior : List LogLine) (engine : EngineExec)
        (flag : Nat → Bool) (clock : Nat → Int) (dur : Nat → Nat)
        (snap : RunSnapshot) (out : List MutationEvent),
      resume_run rid prior engine flag clock dur = some (snap, out) →
      (∀ i, flag i = false) →
      ¬((replayLines prior).completed = true ∧
        (replayLines prior).survivor_mutants = []) →
      ∃ t, out.getLast? = some (MutationEvent.runCompleted rid t)) ∧
    (∀ (rid : String) (prior : List LogLine) (engine : EngineExec)
        (flag : Nat → Bool) (clock : Nat → Int) (dur : Nat → Nat)
        (snap : RunSnapshot) (out : List MutationEvent),
      rerun_survivors rid prior engine flag clock dur = some (snap, out) →
      ∀ e ∈ out, e.isRunCompleted = false) := by
  refine ⟨?_, ?_, ?_⟩
  · intro rid tmo filt meta discovered engine flag clock dur out hout hflag
    obtain ⟨loopEvs, broke, i₁, t₁, hloop, hcases⟩ := run_new_fresh_cases hout
    rcases hcases with ⟨hbfi, rfl⟩ | ⟨hbfi, rfl⟩
    · exfalso
      rw [hflag i₁, Bool.or_false] at hbfi
      obtain ⟨k, hk, hi, hpoll, hbt, hbf, hnc, hint, htouch⟩ :=
        execLoop_spec _ _ _ _ _ _ _ _ _ _ _ _ _ hloop
      obtain ⟨-, hfl⟩ := hbt hbfi
      rw [hflag] at hfl
      cases hfl
    · refine ⟨clock t₁, ?_⟩
      rw [← List.cons_append, List.getLast?_concat]
  · intro rid prior engine flag clock dur snap out hout hflag hne
    rcases resume_run_cases hout with ⟨hc, hs, -, -⟩ |
      ⟨hcond, loopEvs, broke, i₁, t₁, hloop, hcases, hsnap⟩
    · exact absurd ⟨hc, hs⟩ hne
    · rcases hcases with ⟨hbfi, rfl⟩ | ⟨hbfi, rfl⟩
      · exfalso
        rw [hflag i₁, Bool.or_false] at hbfi
        obtain ⟨k, hk, hi, hpoll, hbt, hbf, hnc, hint, htouch⟩ :=
          execLoop_spec _ _ _ _ _ _ _ _ _ _ _ _ _ hloop
        obtain ⟨-, hfl⟩ := hbt hbfi
        rw [hflag] at hfl
        cases hfl
      · refine ⟨clock t₁, ?_⟩
        rw [← List.cons_append, List.getLast?_concat]
  · intro rid prior engine flag clock dur snap out hout e he
    rcases rerun_survivors_cases hout with ⟨-, -, rfl⟩ |
      ⟨-, loopEvs, broke, i₁, t₁, hloop, rfl, -⟩
    · simp at he
    · obtain ⟨k, hk, hi, hpoll, hbt, hbf, hnc, hint, htouch⟩ :=
        execLoop_spec _ _ _ _ _ _ _ _ _ _ _ _ _ hloop
      rcases List.mem_cons.mp he with rfl | he
      · rfl
      · exact hnc e he

/-- C5 witness: a fresh one-mutant run with the flag never set ends its
log with `RunCompleted`. -/
theorem run_completed_after_loop_witness :
    ∃ t, ((run_new_fresh "r" none none meta0 [mutA] engKill flagF clock0
        dur0).getD []).getLast? = some (MutationEvent.runCompleted "r" t) :=
  run_completed_after_loop.1 "r" none none meta0 [mutA] engKill flagF clock0
    dur0 _ (by decide) (fun _ => rfl)

/-- C6 counterexample: a log reachable by `run_new` (one surviving mutant,
run completes) followed by `resume_run` (which re-tests the survivor and
completes again) contains a `RunCompleted` event at index 4 of 9 — so a
`RunCompleted`, when present, is not always the last event of the log. -/
theorem run_completed_not_last_counterexample :
    (run_new_fresh "r" none none meta0 [mutA] engSurv flagF clock0
      dur0).isSome = true ∧
    (resume_run "r" (c6log1.map LogLine.event) engKill flagF clock0
      dur0).isSome = true ∧
    c6full.get? 4 = some (MutationEvent.runCompleted "r" 0) ∧
    c6full.length = 9 ∧
    ¬(∀ (i : Nat) (e : MutationEvent), c6full.get? i = some e →
        e.isRunCompleted = true → i = c6full.length - 1) := by
  refine ⟨by decide, by decide, by decide, by decide, ?_⟩
  intro hall
  have h := hall 4 (MutationEvent.runCompleted "r" 0) (by decide) (by decide)
  rw [show c6full.length - 1 = 8 from by decide] at h
  cases h

/-- C6 (amended): within the event segment appended by one `run_new`,
`resume_run` or `rerun_survivors` invocation, a `RunCompleted` event, if
present, is the last event of that segment (a later resume of a completed
run with survivors may append further events after an earlier
`RunCompleted`). -/
theorem run_completed_last_within_invocation :
    (∀ (rid : String) (tmo : Option Nat) (filt : Option String)
        (meta : RunMetadata) (discovered : List MutantSpec)
        (engine : EngineExec) (flag : Nat → Bool) (clock : Nat → Int)
        (dur : Nat → Nat) (out : List MutationEvent),
      run_new_fresh rid tmo filt meta discovered engine flag clock dur =
        some out →
      ∀ (i : Nat) (e : MutationEvent), out.get? i = some e →
        e.isRunCompleted = true → i = out.length - 1) ∧
    (∀ (rid : String) (prior : List LogLine) (engine : EngineExec)
        (flag : Nat → Bool) (clock : Nat → Int) (dur : Nat → Nat)
        (snap : RunSnapshot) (out : List MutationEvent),
      resume_run rid prior engine flag clock dur = some (snap, out) →
      ∀ (i : Nat) (e : MutationEvent), out.get? i = some e →
        e.isRunCompleted = true → i = out.length - 1) ∧
    (∀ (rid : String) (prior : List LogLine) (engine : EngineExec)
        (flag : Nat → Bool) (clock : Nat → Int) (dur : Nat → Nat)
        (snap : RunSnapshot) (out : List MutationEvent),
      rerun_survivors rid prior engine flag clock dur = some (snap, out) →
      ∀ (i : Nat) (e : MutationEvent), out.get? i = some e →
        e.isRunCompleted = true → i = out.length - 1) := by
  refine ⟨?_, ?_, ?_⟩
  · intro rid tmo filt meta discovered engine flag clock dur out hout i e hget
      hcomp
    obtain ⟨loopEvs, broke, i₁, t₁, hloop, hcases⟩ := run_new_fresh_cases hout
    obtain ⟨k, hk, hi, hpoll, hbt, hbf, hnc, hint, htouch⟩ :=
      execLoop_spec _ _ _ _ _ _ _ _ _ _ _ _ _ hloop
    have hpre : ∀ x ∈ MutationEvent.runStarted rid (clock 0)
        (run_new_filter filt discovered).length
        (some ⟨tmo, filt, none, none⟩) (some meta) ::
        ((discoverEvents rid clock (run_new_filter filt discovered) 1).1 ++
          loopEvs), x.isRunCompleted = false := by
      intro x hx
      rcases List.mem_cons.mp hx with rfl | hx
      · rfl
      · rcases List.mem_append.mp hx with hx | hx
        · exact (discover_event_flags x hx).1
        · exact hnc x hx
    rcases hcases with ⟨hbfi, rfl⟩ | ⟨hbfi, rfl⟩
    · have := hpre e (List.get?_mem hget)
      rw [hcomp] at this
      cases this
    · rw [← List.cons_append] at hget ⊢
      set pre := MutationEvent.runStarted rid (clock 0)
        (run_new_filter filt discovered).length
        (some ⟨tmo, filt, none, none⟩) (some meta) ::
        ((discoverEvents rid clock (run_new_filter filt discovered) 1).1 ++
          loopEvs) with hpredef
      obtain ⟨hlen, -⟩ := List.get?_eq_some.mp hget
      rw [List.length_append, List.length_singleton] at hlen
      by_cases hilt : i < pre.length
      · exfalso
        rw [List.get?_append hilt] at hget
        have := hpre e (List.get?_mem hget)
        rw [hcomp] at this
        cases this
      · rw [List.length_append, List.length_singleton]
        omega
  · intro rid prior engine flag clock dur snap out hout i e hget hcomp
    rcases resume_run_cases hout with ⟨-, -, -, rfl⟩ |
      ⟨hcond, loopEvs, broke, i₁, t₁, hloop, hcases, hsnap⟩
    · simp at hget
    · obtain ⟨k, hk, hi, hpoll, hbt, hbf, hnc, hint, htouch⟩ :=
        execLoop_spec _ _ _ _ _ _ _ _ _ _ _ _ _ hloop
      have hpre : ∀ x ∈ MutationEvent.runResumed rid (clock 0)
          (resume_scheduled (replayLines prior)).length :: loopEvs,
          x.isRunCompleted = false := by
        intro x hx
        rcases List.mem_cons.mp hx with rfl | hx
        · rfl
        · exact hnc x hx
      rcases hcases with ⟨hbfi, rfl⟩ | ⟨hbfi, rfl⟩
      · have := hpre e (List.get?_mem hget)
        rw [hcomp] at this
        cases this
      · rw [← List.cons_append] at hget ⊢
        set pre := MutationEvent.runResumed rid (clock 0)
          (resume_scheduled (replayLines prior)).length :: loopEvs with hpredef
        obtain ⟨hlen, -⟩ := List.get?_eq_some.mp hget
        rw [List.length_append, List.length_singleton] at hlen
        by_cases hilt : i < pre.length
        · exfalso
          rw [List.get?_append hilt] at hget
          have := hpre e (List.get?_mem hget)
          rw [hcomp] at this
          cases this
        · rw [List.length_append, List.length_singleton]
          omega
  · intro rid prior engine flag clock dur snap out hout i e hget hcomp
    rcases rerun_survivors_cases hout with ⟨-, -, rfl⟩ |
      ⟨-, loopEvs, broke, i₁, t₁, hloop, rfl, -⟩
    · simp at hget
    · obtain ⟨k, hk, hi, hpoll, hbt, hbf, hnc, hint, htouch⟩ :=
        execLoop_spec _ _ _ _ _ _ _ _ _ _ _ _ _ hloop
      exfalso
      have : e.isRunCompleted = false := by
        rcases List.mem_cons.mp (List.get?_mem hget) with rfl | hx
        · rfl
        · exact hnc e hx
      rw [hcomp] at this
      cases this

/-- C6 witness: in the one-mutant fresh run, its `RunCompleted` sits at the
final index of the appended segment. -/
theorem run_completed_last_within_invocation_witness :
    4 = ((run_new_fresh "r" none none meta0 [mutA] engKill flagF clock0
      dur0).getD []).length - 1 :=
  run_completed_last_within_invocation.1 "r" none none meta0 [mutA] engKill
    flagF clock0 dur0 _ (by decide) 4 (MutationEvent.runCompleted "r" 0)
    (by decide) (by decide)

/-- C1 counterexample: in a run whose survivors were discovered in the
order `b` then `a`, the resume queue is `[a, b, c-pending]` — ascending id
order — not the discovery order `[b, a, c]` the claim requires within the
survivor group. -/
theorem resume_discovery_order_counterexample :
    resume_scheduled (replayLines c1prior) = [mutA, mutB, mutC] ∧
    resume_scheduled (replayLines c1prior) ≠ [mutB, mutA, mutC] :=
  ⟨by decide, by decide⟩

/-- C1 (amended): for every incomplete-run snapshot, `resume_run` builds
its queue as the survivors first, then the pending mutants whose id is not
in the survivor set, de-duplicated by id — each group in ascending-id
order (the map's order), not discovery order; on the spec scenario
{a: survived, b: killed, c: pending} the executed queue is exactly
`[a, c]`. -/
theorem resume_queue_survivors_first :
    (∀ prior : List LogLine,
      (replayLines prior).completed = false →
      resume_scheduled (replayLines prior) =
        (replayLines prior).survivor_mutants ++
          (replayLines prior).pending_mutants.filter
            (fun m => ! (((replayLines prior).survivor_mutants.map
              (fun x => x.id)).contains m.id)) ∧
      (((replayLines prior).survivor_mutants.map (fun m => m.id)).Pairwise
        (· < ·)) ∧
      (((replayLines prior).pending_mutants.map (fun m => m.id)).Pairwise
        (· < ·))) ∧
    ((resume_run "r" cABC engKill flagF clock0 dur0).map
      (fun p => p.2.filterMap MutationEvent.startedId) = some ["a", "c"]) := by
  constructor
  · intro prior hc
    exact ⟨resume_scheduled_eq_filter (replayLines_wf prior) hc,
      survivor_ids_pairwise (replayLines_wf prior),
      pending_ids_pairwise (replayLines_wf prior)⟩
  · decide

/-- C1 witness: the queue formula instantiated on the concrete
counterexample log (an incomplete run). -/
theorem resume_queue_survivors_first_witness :
    resume_scheduled (replayLines c1prior) =
      (replayLines c1prior).survivor_mutants ++
        (replayLines c1prior).pending_mutants.filter
          (fun m => ! (((replayLines c1prior).survivor_mutants.map
            (fun x => x.id)).contains m.id)) ∧
    (((replayLines c1prior).survivor_mutants.map (fun m => m.id)).Pairwise
      (· < ·)) ∧
    (((replayLines c1prior).pending_mutants.map (fun m => m.id)).Pairwise
      (· < ·)) :=
  resume_queue_survivors_first.1 c1prior (by decide)

theorem startedId_touched {e : MutationEvent} {X : String}
    (h : e.startedId = some X) : e.touchedId = some X := by
  cases e <;> simp_all [MutationEvent.startedId, MutationEvent.touchedId]

theorem take_ids_ne_get {sched : List MutantSpec}
    (hnodup : (sched.map (fun m => m.id)).Nodup) {k j : Nat}
    (hj : j < sched.length) (hkj : k ≤ j) {X : String}
    (hX : X ∈ (sched.map (fun m => m.id)).take k) :
    X ≠ (sched.get ⟨j, hj⟩).id := by
  intro hEq
  subst hEq
  have hj₂ : j < (sched.map (fun m => m.id)).length := by simpa using hj
  have hget : (sched.map (fun m => m.id)).get ⟨j, hj₂⟩ =
      (sched.get ⟨j, hj⟩).id := by
    rw [List.get_eq_getElem, List.get_eq_getElem, List.getElem_map]
  have hnot := get_not_mem_take hnodup hj₂ hkj
  rw [hget] at hnot
  exact hnot hX

theorem get_id_not_mem_take {sched : List MutantSpec}
    (hnodup : (sched.map (fun m => m.id)).Nodup) {k N : Nat}
    (hN : N < sched.length) (hkN : k ≤ N) :
    (sched.get ⟨N, hN⟩).id ∉ (sched.map (fun m => m.id)).take k :=
  fun hmem => take_ids_ne_get hnodup hN hkN hmem rfl

theorem loop_lines_untouched {loopEvs : List MutationEvent}
    {sched : List MutantSpec} {k : Nat} {X : String}
    (htouch : ∀ e ∈ loopEvs, ∀ Y, e.touchedId = some Y →
      Y ∈ (sched.map (fun m => m.id)).take k)
    (hX : X ∉ (sched.map (fun m => m.id)).take k) :
    ∀ line ∈ loopEvs.map LogLine.event, line.touches X = false := by
  intro line hline
  obtain ⟨e, he, rfl⟩ := List.mem_map.mp hline
  cases ht : e.touchedId with
  | none => simp [LogLine.touches, ht]
  | some Y =>
    have hY := htouch e he Y ht
    have hne : Y ≠ X := fun hEq => hX (hEq ▸ hY)
    simp [LogLine.touches, ht, hne]

theorem isCompletedLine_event (e : MutationEvent) :
    (LogLine.event e).isCompletedLine = e.isRunCompleted := by
  cases e <;> rfl

theorem execLoop_interrupted_before {rid reason : String} {engine : EngineExec}
    {flag : Nat → Bool} {clock : Nat → Int} {dur : Nat → Nat}
    {sched : List MutantSpec} {t₀ : Nat} {loopEvs : List MutationEvent}
    {broke : Bool} {i₁ t₁ N : Nat}
    (hloop : execLoop rid reason engine flag clock dur sched 0 t₀ =
      some (loopEvs, broke, i₁, t₁))
    (hN : N < sched.length) (hflag : flag N = true) :
    broke = true ∧ (∃ e ∈ loopEvs, e.isRunInterrupted = true) ∧
    (∀ e ∈ loopEvs, e.isRunCompleted = false) ∧
    ∃ k, k ≤ N ∧ ∀ e ∈ loopEvs, ∀ X, e.touchedId = some X →
      X ∈ (sched.map (fun m => m.id)).take k := by
  obtain ⟨k, hk, hi, hpoll, hbt, hbf, hnc, hint, htouch⟩ :=
    execLoop_spec _ _ _ _ _ _ _ _ _ _ _ _ _ hloop
  have hbroke : broke = true := by
    cases hbc : broke with
    | true => rfl
    | false =>
      exfalso
      have hkl := hbf hbc
      have hp := hpoll N (by omega)
      rw [Nat.zero_add, hflag] at hp
      cases hp
  have hkN : k ≤ N := by
    by_contra hgt
    push_neg at hgt
    have hp := hpoll N hgt
    rw [Nat.zero_add, hflag] at hp
    cases hp
  refine ⟨hbroke, hint.mpr hbroke, hnc, k, hkN, ?_⟩
  intro e he X hX
  have := htouch e he X hX
  rwa [← List.map_take]

/-- C4: in `run_new` (fresh path) and `resume_run`, if the interrupt flag
is observed set before the loop reaches a scheduled mutant N that has
never been started (derived status `Pending`), the invocation appends a
`RunInterrupted` event, appends no `MutantStarted` for mutant N or any
later scheduled mutant, the final replayed snapshot has
`completed = false`, and its `pending_mutants()` is non-empty. -/
theorem interrupt_before_mutant_start :
    (∀ (rid : String) (tmo : Option Nat) (filt : Option String)
        (meta : RunMetadata) (discovered : List MutantSpec)
        (engine : EngineExec) (flag : Nat → Bool) (clock : Nat → Int)
        (dur : Nat → Nat) (out : List MutationEvent) (N : Nat),
      run_new_fresh rid tmo filt meta discovered engine flag clock dur =
        some out →
      ∀ hN : N < (run_new_filter filt discovered).length,
      ((run_new_filter filt discovered).map (fun m => m.id)).Nodup →
      flag N = true →
      (∃ e ∈ out, e.isRunInterrupted = true) ∧
      (∀ e ∈ out, ∀ (j : Nat) (hj : j < (run_new_filter filt discovered).length),
        N ≤ j →
        e.startedId ≠ some (((run_new_filter filt discovered).get ⟨j, hj⟩).id)) ∧
      (replayLines (out.map LogLine.event)).completed = false ∧
      (replayLines (out.map LogLine.event)).pending_mutants ≠ []) ∧
    (∀ (rid : String) (prior : List LogLine) (engine : EngineExec)
        (flag : Nat → Bool) (clock : Nat → Int) (dur : Nat → Nat)
        (snap : RunSnapshot) (out : List MutationEvent) (N : Nat),
      resume_run rid prior engine flag clock dur = some (snap, out) →
      ∀ hN : N < (resume_scheduled (replayLines prior)).length,
      (∃ st, mapLookup
          (((resume_scheduled (replayLines prior)).get ⟨N, hN⟩).id)
          (replayLines prior).mutants = some st ∧
        st.status = MutationStatus.pending) →
      flag N = true →
      (∃ e ∈ out, e.isRunInterrupted = true) ∧
      (∀ e ∈ out, ∀ (j : Nat)
        (hj : j < (resume_scheduled (replayLines prior)).length), N ≤ j →
        e.startedId ≠
          some (((resume_scheduled (replayLines prior)).get ⟨j, hj⟩).id)) ∧
      (replayLines (prior ++ out.map LogLine.event)).completed = false ∧
      (replayLines (prior ++ out.map LogLine.event)).pending_mutants ≠ []) := by
  constructor
  · intro rid tmo filt meta discovered engine flag clock dur out N hout hN
      hnodup hflag
    obtain ⟨loopEvs, broke, i₁, t₁, hloop, hcases⟩ := run_new_fresh_cases hout
    obtain ⟨hbroke, hintm, hnc, k, hkN, htake⟩ :=
      execLoop_interrupted_before hloop hN hflag
    rcases hcases with ⟨-, rfl⟩ | ⟨hbfi, rfl⟩
    · refine ⟨?_, ?_, ?_, ?_⟩
      · obtain ⟨e, he, hei⟩ := hintm
        exact ⟨e, List.mem_cons_of_mem _ (List.mem_append.mpr (Or.inr he)), hei⟩
      · intro e he j hj hNj heq
        rcases List.mem_cons.mp he with rfl | he
        · simp [MutationEvent.startedId] at heq
        · rcases List.mem_append.mp he with he | he
          · have hnone := (discover_event_flags e he).2.2
            rw [hnone] at heq
            cases heq
          · have htid := startedId_touched heq
            have hXin := htake e he _ htid
            exact take_ids_ne_get hnodup hj (le_trans hkN hNj) hXin rfl
      · simp only [List.map_cons, List.map_append]
        rw [replayLines, foldl_replayStep_completed,
          show initialSnapshot.completed = false from rfl, Bool.false_or]
        have h2 : (((discoverEvents rid clock
            (run_new_filter filt discovered) 1).1).map LogLine.event).any
            LogLine.isCompletedLine = false := by
          rw [List.any_eq_false]
          intro line hline
          obtain ⟨e, he, rfl⟩ := List.mem_map.mp hline
          rw [isCompletedLine_event, (discover_event_flags e he).1]
          exact Bool.false_ne_true
        have h3 : (loopEvs.map LogLine.event).any LogLine.isCompletedLine =
            false := by
          rw [List.any_eq_false]
          intro line hline
          obtain ⟨e, he, rfl⟩ := List.mem_map.mp hline
          rw [isCompletedLine_event, hnc e he]
          exact Bool.false_ne_true
        simp only [List.any_cons, List.any_append, h2, h3]
        rfl
      · have hXnot := get_id_not_mem_take hnodup hN hkN
        have huntouched := loop_lines_untouched htake hXnot
        have hlook : mapLookup
            ((run_new_filter filt discovered).get ⟨N, hN⟩).id
            (replayLines ((MutationEvent.runStarted rid (clock 0)
              (run_new_filter filt discovered).length
              (some ⟨tmo, filt, none, none⟩) (some meta) ::
              ((discoverEvents rid clock (run_new_filter filt discovered) 1).1 ++
                loopEvs)).map LogLine.event)).mutants =
            some (freshMutantState
              ((run_new_filter filt discovered).get ⟨N, hN⟩)) := by
          simp only [List.map_cons, List.map_append]
          rw [replayLines]
          simp only [List.foldl_cons, List.foldl_append]
          rw [foldl_lookup_untouched huntouched]
          exact discover_replay_lookup rid clock _ 1 _ N hN hnodup
        have hpmem := pending_mem_of_lookup hlook rfl
        exact List.ne_nil_of_mem hpmem
    · rw [hbroke, Bool.true_or] at hbfi
      cases hbfi
  · intro rid prior engine flag clock dur snap out N hout hN hpend hflag
    obtain ⟨st, hlook₀, hstat⟩ := hpend
    have hwf := replayLines_wf prior
    have hcf : (replayLines prior).completed = false := by
      cases hcc : (replayLines prior).completed with
      | false => rfl
      | true =>
        exfalso
        have hmem : (resume_scheduled (replayLines prior)).get ⟨N, hN⟩ ∈
            (replayLines prior).survivor_mutants := by
          rw [← resume_scheduled_of_completed hcc]
          exact List.get_mem _ _ _
        obtain ⟨st₂, hlook₂, hspec₂, hsurv₂⟩ :=
          (survivor_mutants_iff hwf _).mp hmem
        rw [hlook₀] at hlook₂
        obtain rfl := Option.some.inj hlook₂
        rw [hstat] at hsurv₂
        cases hsurv₂
    rcases resume_run_cases hout with ⟨hc, -, -, -⟩ |
      ⟨hcond, loopEvs, broke, i₁, t₁, hloop, hcases, hsnap⟩
    · rw [hcf] at hc
      cases hc
    · obtain ⟨hbroke, hintm, hnc, k, hkN, htake⟩ :=
        execLoop_interrupted_before hloop hN hflag
      have hnodup := resume_scheduled_ids_nodup hwf
      rcases hcases with ⟨-, rfl⟩ | ⟨hbfi, rfl⟩
      · refine ⟨?_, ?_, ?_, ?_⟩
        · obtain ⟨e, he, hei⟩ := hintm
          exact ⟨e, List.mem_cons_of_mem _ he, hei⟩
        · intro e he j hj hNj heq
          rcases List.mem_cons.mp he with rfl | he
          · simp [MutationEvent.startedId] at heq
          · have htid := startedId_touched heq
            have hXin := htake e he _ htid
            exact take_ids_ne_get hnodup hj (le_trans hkN hNj) hXin rfl
        · rw [replayLines_append, foldl_replayStep_completed, hcf,
            Bool.false_or]
          rw [List.any_eq_false]
          intro line hline
          simp only [List.map_cons] at hline
          rcases List.mem_cons.mp hline with rfl | hline
          · exact Bool.false_ne_true
          · obtain ⟨e, he, rfl⟩ := List.mem_map.mp hline
            rw [isCompletedLine_event, hnc e he]
            exact Bool.false_ne_true
        · have hXnot := get_id_not_mem_take hnodup hN hkN
          have huntouched := loop_lines_untouched htake hXnot
          have hlook : mapLookup
              (((resume_scheduled (replayLines prior)).get ⟨N, hN⟩).id)
              (replayLines (prior ++
                (MutationEvent.runResumed rid (clock 0)
                  (resume_scheduled (replayLines prior)).length ::
                  loopEvs).map LogLine.event)).mutants = some st := by
            rw [replayLines_append]
            simp only [List.map_cons, List.foldl_cons]
            have hres : (LogLine.event (MutationEvent.runResumed rid (clock 0)
                (resume_scheduled (replayLines prior)).length)).touches
                (((resume_scheduled (replayLines prior)).get ⟨N, hN⟩).id) =
                false := rfl
            rw [foldl_lookup_untouched huntouched,
              replayStep_lookup_untouched hres]
            exact hlook₀
          have hpmem := pending_mem_of_lookup hlook
            (by rw [hstat]; rfl)
          exact List.ne_nil_of_mem hpmem
      · rw [hbroke, Bool.true_or] at hbfi
        cases hbfi

/-- C4 witness: a fresh one-mutant run with the flag already set appends
`RunInterrupted`, starts nothing, and leaves the mutant pending. -/
theorem interrupt_before_mutant_start_witness :
    (∃ e ∈ (run_new_fresh "r" none none meta0 [mutA] engKill flagT clock0
        dur0).getD [], e.isRunInterrupted = true) ∧
    (∀ e ∈ (run_new_fresh "r" none none meta0 [mutA] engKill flagT clock0
        dur0).getD [], ∀ (j : Nat)
      (hj : j < (run_new_filter none [mutA]).length), 0 ≤ j →
      e.startedId ≠ some (((run_new_filter none [mutA]).get ⟨j, hj⟩).id)) ∧
    (replayLines (((run_new_fresh "r" none none meta0 [mutA] engKill flagT
      clock0 dur0).getD []).map LogLine.event)).completed = false ∧
    (replayLines (((run_new_fresh "r" none none meta0 [mutA] engKill flagT
      clock0 dur0).getD []).map LogLine.event)).pending_mutants ≠ [] :=
  interrupt_before_mutant_start.1 "r" none none meta0 [mutA] engKill flagT
    clock0 dur0 _ 0 (by decide) (by decide) (by decide) rfl
